import Mathlib

/-!
Verification development for the affiliate order/withdrawal ledger of
`src/main.py` (a Telegram sales-affiliate bot).

The embedding models the persisted store (affiliates, orders, withdrawals)
together with the in-flight multi-turn conversations (order collection and
withdrawal collection), since several handlers split their checks and their
writes across separate handler invocations.  Monetary values (Python floats)
are modelled as rationals with exact arithmetic; timestamps are rationals
measured in seconds.  Each Telegram handler that touches the store becomes a
pure function `Sys → Sys × Res`, keeping the source's order of checks and the
source's rollback semantics (an uncaught exception or a failed check commits
nothing).  The handlers run one at a time (the bot processes updates
sequentially), so one handler invocation is one atomic event.

Two models of the in-flight conversation data are developed.  The base model
(`Sys`) gives each conversation a private record of its collected fields; it
over-approximates the program (every real persist carries values the real
handlers validated at write time, so every real store mutation has a model
counterpart) and is used for the store-level invariants, where this slack
only makes the theorems stronger.  Presentation-only fields (customer
name/phone, address, city, product, product code) do not influence ledger
state there and are omitted; the `Order` record keeps only the fields the
ledger logic reads.  The refined model (`UD` namespace) renders
`context.user_data` faithfully: one dict per user shared by all of that
user's conversations across chats, wiped whole by `user_data.clear()`, with
per-(user, chat) conversation states and with the insert gated on presence
of every not-null column's field.  The rate-limiter claim is settled on the
refined model, where the shared dict and its clears are load-bearing.
-/

namespace AffiliateBot

/-- Exchange rates to USD, from the configuration block of `main.py`
(`SAR_TO_USD = 0.2665`). -/
def SAR_TO_USD : ℚ := 2665 / 10000

/-- `AED_TO_USD = 0.2723` from the configuration block of `main.py`. -/
def AED_TO_USD : ℚ := 2723 / 10000

/-- `get_currency_for_country` from `main.py`: `"SAR" if country == "Saudi
Arabia" else "AED" if country == "UAE" else "N/A"`. -/
def get_currency_for_country (country : String) : String :=
  if country = "Saudi Arabia" then "SAR"
  else if country = "UAE" then "AED"
  else "N/A"

/-- `convert_to_usd` from `main.py`: multiplies by the static rate for SAR and
AED, is the identity on USD, and raises `ValueError` on anything else (the
raise is modelled as `Except.error`). -/
def convert_to_usd (amount : ℚ) (currency : String) : Except String ℚ :=
  if currency = "SAR" then .ok (amount * SAR_TO_USD)
  else if currency = "AED" then .ok (amount * AED_TO_USD)
  else if currency = "USD" then .ok amount
  else .error ("Unknown currency: " ++ currency)

/-- The environment-derived configuration of `main.py`
(`RATE_LIMIT_PER_MINUTE`, default 10, and `MIN_WITHDRAWAL_AMOUNT`,
default 50.0), passed explicitly. -/
structure Config where
  rate_limit_per_minute : Nat
  min_withdrawal_amount : ℚ
deriving DecidableEq

/-- Order status column: `pending, delivered, issue`. -/
inductive OrderStatus where
  | pending
  | delivered
  | issue
deriving DecidableEq

/-- The string stored in the `orders.status` column for each status. -/
def OrderStatus.str : OrderStatus → String
  | .pending => "pending"
  | .delivered => "delivered"
  | .issue => "issue"

/-- Withdrawal status column: `pending, approved, rejected`. -/
inductive WStatus where
  | pending
  | approved
  | rejected
deriving DecidableEq

/-- The string stored in the `withdrawals.status` column for each status. -/
def WStatus.str : WStatus → String
  | .pending => "pending"
  | .approved => "approved"
  | .rejected => "rejected"

/-- Row of the `affiliates` table. -/
structure Affiliate where
  id : Nat
  telegram_id : Nat
  name : String
  phone : String
  store_name : String
  balance : ℚ
  total_earnings : ℚ
  total_sales : ℚ
  total_orders : Nat
deriving DecidableEq

/-- Row of the `orders` table (ledger-relevant columns). -/
structure Order where
  id : Nat
  affiliate_id : Nat
  country : String
  currency : String
  cost_price : ℚ
  selling_price : ℚ
  commission : ℚ
  status : OrderStatus
  created_at : ℚ
deriving DecidableEq

/-- Row of the `withdrawals` table. -/
structure Withdrawal where
  id : Nat
  affiliate_id : Nat
  amount : ℚ
  phone : String
  currency : String
  status : WStatus
  requested_at : ℚ
  processed_at : Option ℚ
  processed_by_admin_id : Option Nat
deriving DecidableEq

/-- In-flight order conversation (`context.user_data` between `start_order`
and `order_selling_price`); fields are `none` until the corresponding
conversation step stores them. -/
structure OrderConv where
  id : Nat
  affiliate_id : Nat
  country : Option String
  currency : Option String
  cost_price : Option ℚ
deriving DecidableEq

/-- In-flight withdrawal conversation (`context.user_data` between
`start_withdrawal` and `withdrawal_phone`); `cached_balance` is the balance
snapshot stored by `start_withdrawal`. -/
structure WithdrawalConv where
  id : Nat
  affiliate_id : Nat
  cached_balance : ℚ
  amount : Option ℚ
deriving DecidableEq

/-- The whole mutable state: the three persisted tables, the in-flight
conversations, and the id counters of the primary-key columns. -/
structure Sys where
  affiliates : List Affiliate
  orders : List Order
  withdrawals : List Withdrawal
  orderConvs : List OrderConv
  wConvs : List WithdrawalConv
  nextAffId : Nat
  nextOrderId : Nat
  nextWId : Nat
  nextConvId : Nat
  nextWConvId : Nat
deriving DecidableEq

/-- Empty store, as (re)created by `init_db`. -/
def Sys.init : Sys := ⟨[], [], [], [], [], 1, 1, 1, 1, 1⟩

/-- `select(Affiliate).where(Affiliate.telegram_id == user_id)`. -/
def findAffByTg (s : Sys) (tg : Nat) : Option Affiliate :=
  s.affiliates.find? (fun a => a.telegram_id == tg)

/-- `select(Affiliate).where(Affiliate.id == affiliate_id)`. -/
def findAff (s : Sys) (aid : Nat) : Option Affiliate :=
  s.affiliates.find? (fun a => a.id == aid)

/-- `select(Order).where(Order.id == order_id)`. -/
def findOrder (s : Sys) (oid : Nat) : Option Order :=
  s.orders.find? (fun o => o.id == oid)

/-- `select(Withdrawal).where(Withdrawal.id == withdrawal_id)`. -/
def findWithdrawal (s : Sys) (wid : Nat) : Option Withdrawal :=
  s.withdrawals.find? (fun w => w.id == wid)

/-- Look up an in-flight order conversation. -/
def findOrderConv (s : Sys) (cid : Nat) : Option OrderConv :=
  s.orderConvs.find? (fun c => c.id == cid)

/-- Look up an in-flight withdrawal conversation. -/
def findWConv (s : Sys) (cid : Nat) : Option WithdrawalConv :=
  s.wConvs.find? (fun c => c.id == cid)

/-- `select(Withdrawal).where(Withdrawal.affiliate_id == aid,
Withdrawal.status == "pending")`. -/
def pendingWithdrawalsFor (s : Sys) (aid : Nat) : List Withdrawal :=
  s.withdrawals.filter (fun w => w.affiliate_id == aid && w.status == WStatus.pending)

/-- The count computed by `rate_limit_check`: orders of the affiliate whose
`created_at` is at least `now` minus one minute. -/
def ordersInWindow (s : Sys) (aid : Nat) (now : ℚ) : Nat :=
  (s.orders.filter (fun o => o.affiliate_id == aid && decide (now - 60 ≤ o.created_at))).length

/-- `rate_limit_check` from `main.py`: `count < RATE_LIMIT_PER_MINUTE`. -/
def rate_limit_check (cfg : Config) (s : Sys) (aid : Nat) (now : ℚ) : Bool :=
  ordersInWindow s aid now < cfg.rate_limit_per_minute

/-- Outcome reported by a handler invocation (the user-facing reply,
abstracted to its domain meaning; `exn` is an uncaught Python exception,
which commits nothing). -/
inductive Res where
  | ok
  | notRegistered
  | duplicateIdentity
  | rateLimited
  | invalidInput
  | invalidPricing
  | belowMinimum
  | insufficientBalance
  | duplicatePending
  | convNotFound
  | orderNotFound
  | withdrawalNotFound
  | affiliateNotFound
  | alreadyProcessed (st : String)
  | exn (msg : String)
deriving DecidableEq

/-- `register_store_name` (the final registration step, which inserts the
affiliate row): a second registration for the same `telegram_id` violates the
unique constraint and rolls back. -/
def register_store_name (s : Sys) (tg : Nat) (name phone store : String) :
    Sys × Res :=
  match findAffByTg s tg with
  | some _ => (s, .duplicateIdentity)
  | none =>
      ({ s with
          affiliates := s.affiliates ++
            [⟨s.nextAffId, tg, name, phone, store, 0, 0, 0, 0⟩],
          nextAffId := s.nextAffId + 1 }, .ok)

/-- `start_order`: requires a registered affiliate and a passing
`rate_limit_check`, then opens an order conversation (stores
`affiliate_id` in `user_data`). -/
def start_order (cfg : Config) (s : Sys) (tg : Nat) (now : ℚ) : Sys × Res :=
  match findAffByTg s tg with
  | none => (s, .notRegistered)
  | some a =>
      if rate_limit_check cfg s a.id now then
        ({ s with
            orderConvs := s.orderConvs ++ [⟨s.nextConvId, a.id, none, none, none⟩],
            nextConvId := s.nextConvId + 1 }, .ok)
      else (s, .rateLimited)

/-- Replace the conversation `cid` by `f` applied to it. -/
def updateOrderConv (s : Sys) (cid : Nat) (f : OrderConv → OrderConv) : Sys :=
  { s with orderConvs := s.orderConvs.map (fun c => if c.id == cid then f c else c) }

/-- `context.user_data.clear()` for an order conversation. -/
def removeOrderConv (s : Sys) (cid : Nat) : Sys :=
  { s with orderConvs := s.orderConvs.filter (fun c => !(c.id == cid)) }

/-- Replace the withdrawal conversation `cid` by `f` applied to it. -/
def updateWConv (s : Sys) (cid : Nat) (f : WithdrawalConv → WithdrawalConv) : Sys :=
  { s with wConvs := s.wConvs.map (fun c => if c.id == cid then f c else c) }

/-- `context.user_data.clear()` for a withdrawal conversation. -/
def removeWConv (s : Sys) (cid : Nat) : Sys :=
  { s with wConvs := s.wConvs.filter (fun c => !(c.id == cid)) }

/-- `order_country`: accepts exactly the two country choices (the Arabic
keyboard labels map to `"Saudi Arabia"` and `"UAE"`; the argument here is the
mapped value) and stores both the country and
`get_currency_for_country(country)` in the conversation. -/
def order_country (s : Sys) (cid : Nat) (country : String) : Sys × Res :=
  match findOrderConv s cid with
  | none => (s, .convNotFound)
  | some _ =>
      if country = "Saudi Arabia" ∨ country = "UAE" then
        (updateOrderConv s cid (fun c =>
          { c with country := some country,
                   currency := some (get_currency_for_country country) }), .ok)
      else (s, .invalidInput)

/-- `order_cost_price`: rejects `cost_price <= 0` (re-prompting, so the
conversation survives), otherwise stores the cost price. -/
def order_cost_price (s : Sys) (cid : Nat) (cost : ℚ) : Sys × Res :=
  match findOrderConv s cid with
  | none => (s, .convNotFound)
  | some _ =>
      if cost ≤ 0 then (s, .invalidPricing)
      else (updateOrderConv s cid (fun c => { c with cost_price := some cost }), .ok)

/-- `order_selling_price` (the step that persists the order): validates
`selling_price > 0` and `selling_price > cost_price` (re-prompting on
failure), re-fetches the affiliate, then in one transaction inserts the order
(`status = "pending"`, `commission = selling_price - cost_price`, currency
from `user_data` with the source's `.get('order_currency', 'SAR')` default)
and increments the affiliate's `total_orders`.  A missing `cost_price` raises
(`TypeError`) before any write; a missing country makes the insert fail and
roll back, with `user_data` cleared by the `finally`.  No rate-limit check is
performed here. -/
def order_selling_price (s : Sys) (cid : Nat) (selling : ℚ) (now : ℚ) :
    Sys × Res :=
  match findOrderConv s cid with
  | none => (s, .convNotFound)
  | some conv =>
      if selling ≤ 0 then (s, .invalidPricing)
      else
        match conv.cost_price with
        | none => (s, .exn "cost price missing")
        | some cp =>
            if selling ≤ cp then (s, .invalidPricing)
            else
              match findAff s conv.affiliate_id with
              | none => (removeOrderConv s cid, .notRegistered)
              | some a =>
                  match conv.country with
                  | none => (removeOrderConv s cid, .exn "country missing")
                  | some co =>
                      let cu := conv.currency.getD "SAR"
                      let o : Order :=
                        ⟨s.nextOrderId, a.id, co, cu, cp, selling,
                          selling - cp, .pending, now⟩
                      let s1 : Sys :=
                        { s with
                            orders := s.orders ++ [o],
                            affiliates := s.affiliates.map (fun x =>
                              if x.id == a.id then
                                { x with total_orders := x.total_orders + 1 }
                              else x),
                            nextOrderId := s.nextOrderId + 1 }
                      (removeOrderConv s1 cid, .ok)

/-- `start_withdrawal`: requires a registered affiliate, no pending
withdrawal (checked first), and `balance ≥ MIN_WITHDRAWAL_AMOUNT`;
opens a withdrawal conversation caching the current balance. -/
def start_withdrawal (cfg : Config) (s : Sys) (tg : Nat) : Sys × Res :=
  match findAffByTg s tg with
  | none => (s, .notRegistered)
  | some a =>
      if (pendingWithdrawalsFor s a.id).isEmpty then
        if a.balance < cfg.min_withdrawal_amount then (s, .belowMinimum)
        else
          ({ s with
              wConvs := s.wConvs ++ [⟨s.nextWConvId, a.id, a.balance, none⟩],
              nextWConvId := s.nextWConvId + 1 }, .ok)
      else (s, .duplicatePending)

/-- `withdrawal_amount`: validates `amount > 0`, `amount ≤` the cached
balance, and `amount ≥ MIN_WITHDRAWAL_AMOUNT` (re-prompting on failure),
then stores the amount. -/
def withdrawal_amount (cfg : Config) (s : Sys) (cid : Nat) (amt : ℚ) :
    Sys × Res :=
  match findWConv s cid with
  | none => (s, .convNotFound)
  | some c =>
      if amt ≤ 0 then (s, .invalidInput)
      else if c.cached_balance < amt then (s, .insufficientBalance)
      else if amt < cfg.min_withdrawal_amount then (s, .belowMinimum)
      else (updateWConv s cid (fun x => { x with amount := some amt }), .ok)

/-- `withdrawal_phone` (the step that persists the withdrawal): re-fetches
the affiliate, re-checks `amount ≤ affiliate.balance` against the fresh
balance, re-checks that no pending withdrawal exists, then inserts the
withdrawal with `status = "pending"` and currency `"USD"`.  The balance is
deliberately NOT decremented here (deferred to approval).  All failure paths
of this handler clear `user_data`. -/
def withdrawal_phone (s : Sys) (cid : Nat) (phone : String) (now : ℚ) :
    Sys × Res :=
  match findWConv s cid with
  | none => (s, .convNotFound)
  | some c =>
      match findAff s c.affiliate_id with
      | none => (removeWConv s cid, .notRegistered)
      | some a =>
          match c.amount with
          | none => (removeWConv s cid, .exn "amount missing")
          | some amt =>
              if a.balance < amt then (removeWConv s cid, .insufficientBalance)
              else if (pendingWithdrawalsFor s a.id).isEmpty then
                (removeWConv
                  { s with
                      withdrawals := s.withdrawals ++
                        [⟨s.nextWId, a.id, amt, phone, "USD", .pending, now,
                          none, none⟩],
                      nextWId := s.nextWId + 1 } cid, .ok)
              else (removeWConv s cid, .duplicatePending)

/-- Admin action carried by a `delivered_<id>` / `issue_<id>` callback. -/
inductive OrderAct where
  | delivered
  | issue
deriving DecidableEq

/-- Admin action carried by an `approve_<id>` / `reject_<id>` callback. -/
inductive WAct where
  | approve
  | reject
deriving DecidableEq

/-- `handle_order_status_callback`: refuses a missing order, reports a
non-`pending` order as already processed (carrying its current status
string), refuses a missing affiliate, and converts both the commission and
the selling price before branching (so an unknown currency raises for both
actions).  `delivered` sets the status and, in the same commit, increments
the affiliate's `balance` and `total_earnings` by the converted commission
and `total_sales` by the converted selling price; `issue` only sets the
status. -/
def handle_order_status_callback (s : Sys) (act : OrderAct) (oid : Nat) :
    Sys × Res :=
  match findOrder s oid with
  | none => (s, .orderNotFound)
  | some o =>
      if o.status = OrderStatus.pending then
        match findAff s o.affiliate_id with
        | none => (s, .affiliateNotFound)
        | some a =>
            match convert_to_usd o.commission o.currency,
                  convert_to_usd o.selling_price o.currency with
            | .ok uc, .ok us =>
                match act with
                | .delivered =>
                    ({ s with
                        orders := s.orders.map (fun x =>
                          if x.id == oid then { x with status := .delivered }
                          else x),
                        affiliates := s.affiliates.map (fun x =>
                          if x.id == a.id then
                            { x with
                                balance := x.balance + uc,
                                total_earnings := x.total_earnings + uc,
                                total_sales := x.total_sales + us }
                          else x) }, .ok)
                | .issue =>
                    ({ s with
                        orders := s.orders.map (fun x =>
                          if x.id == oid then { x with status := .issue }
                          else x) }, .ok)
            | .error e, _ => (s, .exn e)
            | _, .error e => (s, .exn e)
      else (s, .alreadyProcessed o.status.str)

/-- `handle_withdrawal_callback`: refuses a missing withdrawal, reports a
non-`pending` withdrawal as already processed (carrying its status string),
refuses a missing affiliate.  `approve` re-checks
`affiliate.balance ≥ amount` against the fresh balance and, in one commit,
decrements the balance and marks the withdrawal approved with the processing
admin and time; `reject` only marks it rejected (no balance effect). -/
def handle_withdrawal_callback (s : Sys) (act : WAct) (wid adminId : Nat)
    (now : ℚ) : Sys × Res :=
  match findWithdrawal s wid with
  | none => (s, .withdrawalNotFound)
  | some w =>
      if w.status = WStatus.pending then
        match findAff s w.affiliate_id with
        | none => (s, .affiliateNotFound)
        | some a =>
            match act with
            | .approve =>
                if a.balance < w.amount then (s, .insufficientBalance)
                else
                  ({ s with
                      affiliates := s.affiliates.map (fun x =>
                        if x.id == a.id then
                          { x with balance := x.balance - w.amount }
                        else x),
                      withdrawals := s.withdrawals.map (fun x =>
                        if x.id == wid then
                          { x with
                              status := .approved,
                              processed_at := some now,
                              processed_by_admin_id := some adminId }
                        else x) }, .ok)
            | .reject =>
                ({ s with
                    withdrawals := s.withdrawals.map (fun x =>
                      if x.id == wid then
                        { x with
                            status := .rejected,
                            processed_at := some now,
                            processed_by_admin_id := some adminId }
                      else x) }, .ok)
      else (s, .alreadyProcessed w.status.str)

/-- One handler invocation that can touch the store. -/
inductive Event where
  | register (tg : Nat) (name phone store : String)
  | startOrder (tg : Nat) (now : ℚ)
  | orderCountry (cid : Nat) (country : String)
  | orderCostPrice (cid : Nat) (cost : ℚ)
  | orderSellingPrice (cid : Nat) (selling : ℚ) (now : ℚ)
  | startWithdrawal (tg : Nat)
  | withdrawalAmount (cid : Nat) (amt : ℚ)
  | withdrawalPhone (cid : Nat) (phone : String) (now : ℚ)
  | orderStatus (act : OrderAct) (oid : Nat)
  | withdrawalAction (act : WAct) (wid adminId : Nat) (now : ℚ)

/-- Dispatch one event to its handler. -/
def step (cfg : Config) (e : Event) (s : Sys) : Sys × Res :=
  match e with
  | .register tg n p st => register_store_name s tg n p st
  | .startOrder tg now => start_order cfg s tg now
  | .orderCountry cid co => order_country s cid co
  | .orderCostPrice cid c => order_cost_price s cid c
  | .orderSellingPrice cid sp now => order_selling_price s cid sp now
  | .startWithdrawal tg => start_withdrawal cfg s tg
  | .withdrawalAmount cid amt => withdrawal_amount cfg s cid amt
  | .withdrawalPhone cid ph now => withdrawal_phone s cid ph now
  | .orderStatus act oid => handle_order_status_callback s act oid
  | .withdrawalAction act wid adm now => handle_withdrawal_callback s act wid adm now

/-- Run a sequence of events from the empty store. -/
def run (cfg : Config) (es : List Event) : Sys :=
  es.foldl (fun s e => (step cfg e s).1) Sys.init

/-- A state is reachable when some event sequence produces it. -/
def Reachable (cfg : Config) (s : Sys) : Prop :=
  ∃ es : List Event, run cfg es = s

/-! ### List helper lemmas -/

theorem find?_map_pred {α : Type} (g : α → α) (p : α → Bool)
    (hp : ∀ x, p (g x) = p x) :
    ∀ l : List α, (l.map g).find? p = (l.find? p).map g := by
  intro l
  induction l with
  | nil => rfl
  | cons x t ih =>
      simp only [List.map_cons, List.find?_cons, hp x]
      cases hx : p x
      · simpa using ih
      · rfl

theorem find?_map_fix {α : Type} (g : α → α) (p : α → Bool)
    (hp : ∀ x, p (g x) = p x) (hfix : ∀ x, p x = true → g x = x) :
    ∀ l : List α, (l.map g).find? p = l.find? p := by
  intro l
  induction l with
  | nil => rfl
  | cons x t ih =>
      simp only [List.map_cons, List.find?_cons, hp x]
      cases hx : p x
      · simpa using ih
      · simp [hfix x hx]

theorem length_filter_map_le {α : Type} (g : α → α) (p : α → Bool)
    (h : ∀ x, p (g x) = true → p x = true) :
    ∀ l : List α, ((l.map g).filter p).length ≤ (l.filter p).length := by
  intro l
  induction l with
  | nil => simp
  | cons x t ih =>
      simp only [List.map_cons, List.filter_cons]
      cases hgx : p (g x)
      · cases hx : p x
        · simpa using ih
        · simpa using Nat.le_succ_of_le ih
      · rw [h x hgx]
        simpa using Nat.succ_le_succ ih

/-- In a list whose elements have pairwise distinct ids, membership plus id
equality forces element equality. -/
theorem eq_of_mem_ids_distinct {l : List Affiliate}
    (hpw : l.Pairwise (fun x y => x.id ≠ y.id)) :
    ∀ x ∈ l, ∀ y ∈ l, x.id = y.id → x = y := by
  induction l with
  | nil => intro x hx; exact absurd hx (List.not_mem_nil x)
  | cons a t ih =>
      rw [List.pairwise_cons] at hpw
      intro x hx y hy hxy
      rcases List.mem_cons.mp hx with rfl | hx' <;>
        rcases List.mem_cons.mp hy with rfl | hy'
      · rfl
      · exact absurd hxy (hpw.1 y hy')
      · exact absurd hxy.symm (hpw.1 x hx')
      · exact ih hpw.2 x hx' y hy' hxy

/-! ### Facts about the currency normalizer -/

theorem convert_to_usd_sar (amt : ℚ) :
    convert_to_usd amt "SAR" = .ok (amt * SAR_TO_USD) := rfl

theorem convert_to_usd_aed (amt : ℚ) :
    convert_to_usd amt "AED" = .ok (amt * AED_TO_USD) := by
  simp [convert_to_usd]

theorem convert_to_usd_usd (amt : ℚ) :
    convert_to_usd amt "USD" = .ok amt := by
  simp [convert_to_usd]

theorem convert_to_usd_nonneg {amt : ℚ} {cur : String} {uc : ℚ}
    (h : convert_to_usd amt cur = .ok uc) (ha : 0 ≤ amt) : 0 ≤ uc := by
  unfold convert_to_usd at h
  split_ifs at h <;> injection h with h' <;> subst h'
  · have : (0:ℚ) ≤ SAR_TO_USD := by norm_num [SAR_TO_USD]
    exact mul_nonneg ha this
  · have : (0:ℚ) ≤ AED_TO_USD := by norm_num [AED_TO_USD]
    exact mul_nonneg ha this
  · exact ha

/-! ### The state invariant -/

/-- Every persisted order satisfies the creation-time validations: positive
cost, selling strictly above cost, commission equal to the margin, and a
country/currency pair from the fixed table. -/
def OrderOK (o : Order) : Prop :=
  0 < o.cost_price ∧ o.cost_price < o.selling_price ∧
  o.commission = o.selling_price - o.cost_price ∧
  ((o.country = "Saudi Arabia" ∧ o.currency = "SAR") ∨
   (o.country = "UAE" ∧ o.currency = "AED"))

/-- Every in-flight order conversation only holds validated data: a stored
cost price is positive, and country/currency are stored together by
`order_country` and agree with the fixed table. -/
def ConvOK (c : OrderConv) : Prop :=
  (∀ cp, c.cost_price = some cp → 0 < cp) ∧
  ((c.country = none ∧ c.currency = none) ∨
   (c.country = some "Saudi Arabia" ∧ c.currency = some "SAR") ∨
   (c.country = some "UAE" ∧ c.currency = some "AED"))

/-- Inductive invariant of the system, preserved by every handler. -/
structure GoodState (s : Sys) : Prop where
  bal_nonneg : ∀ a ∈ s.affiliates, 0 ≤ a.balance
  ids_distinct : s.affiliates.Pairwise (fun x y => x.id ≠ y.id)
  ids_lt : ∀ a ∈ s.affiliates, a.id < s.nextAffId
  orders_ok : ∀ o ∈ s.orders, OrderOK o
  convs_ok : ∀ c ∈ s.orderConvs, ConvOK c
  pending_unique : ∀ aid, (pendingWithdrawalsFor s aid).length ≤ 1

theorem goodState_init : GoodState Sys.init := by
  constructor <;> simp [Sys.init, pendingWithdrawalsFor]

theorem good_register (s : Sys) (tg : Nat) (n p st : String)
    (hg : GoodState s) : GoodState (register_store_name s tg n p st).1 := by
  unfold register_store_name
  cases hf : findAffByTg s tg with
  | some a => exact hg
  | none =>
      constructor
      · intro a ha
        rcases List.mem_append.mp ha with h | h
        · exact hg.bal_nonneg a h
        · simp at h; subst h; norm_num
      · rw [List.pairwise_append]
        refine ⟨hg.ids_distinct, by simp, ?_⟩
        intro x hx y hy
        simp at hy; subst hy
        exact Nat.ne_of_lt (hg.ids_lt x hx)
      · intro a ha
        rcases List.mem_append.mp ha with h | h
        · exact Nat.lt_succ_of_lt (hg.ids_lt a h)
        · simp at h; subst h; exact Nat.lt_succ_self _
      · exact hg.orders_ok
      · exact hg.convs_ok
      · exact hg.pending_unique

theorem good_start_order (cfg : Config) (s : Sys) (tg : Nat) (now : ℚ)
    (hg : GoodState s) : GoodState (start_order cfg s tg now).1 := by
  unfold start_order
  cases hf : findAffByTg s tg with
  | none => exact hg
  | some a =>
      by_cases hrl : rate_limit_check cfg s a.id now
      · simp only [hrl, if_true]
        constructor
        · exact hg.bal_nonneg
        · exact hg.ids_distinct
        · exact hg.ids_lt
        · exact hg.orders_ok
        · intro c hc
          rcases List.mem_append.mp hc with h | h
          · exact hg.convs_ok c h
          · simp at h; subst h
            exact ⟨by simp, Or.inl ⟨rfl, rfl⟩⟩
        · exact hg.pending_unique
      · simp only [hrl, if_false]
        exact hg

theorem good_order_country (s : Sys) (cid : Nat) (co : String)
    (hg : GoodState s) : GoodState (order_country s cid co).1 := by
  unfold order_country
  cases hf : findOrderConv s cid with
  | none => exact hg
  | some c0 =>
      by_cases hco : co = "Saudi Arabia" ∨ co = "UAE"
      · simp only [hco, if_true]
        constructor
        · exact hg.bal_nonneg
        · exact hg.ids_distinct
        · exact hg.ids_lt
        · exact hg.orders_ok
        · intro c hc
          simp only [updateOrderConv] at hc
          rcases List.mem_map.mp hc with ⟨y, hy, hyc⟩
          by_cases hid : (y.id == cid) = true
          · simp only [hid, if_true] at hyc
            subst hyc
            refine ⟨fun cp hcp => (hg.convs_ok y hy).1 cp hcp, ?_⟩
            rcases hco with h | h <;> subst h
            · exact Or.inr (Or.inl ⟨rfl, rfl⟩)
            · exact Or.inr (Or.inr ⟨rfl, rfl⟩)
          · simp only [hid, if_false] at hyc
            subst hyc
            exact hg.convs_ok y hy
        · exact hg.pending_unique
      · simp only [hco, if_false]
        exact hg

theorem good_order_cost_price (s : Sys) (cid : Nat) (cost : ℚ)
    (hg : GoodState s) : GoodState (order_cost_price s cid cost).1 := by
  unfold order_cost_price
  cases hf : findOrderConv s cid with
  | none => exact hg
  | some c0 =>
      by_cases hc0 : cost ≤ 0
      · simp only [hc0, if_true]; exact hg
      · simp only [hc0, if_false]
        constructor
        · exact hg.bal_nonneg
        · exact hg.ids_distinct
        · exact hg.ids_lt
        · exact hg.orders_ok
        · intro c hc
          simp only [updateOrderConv] at hc
          rcases List.mem_map.mp hc with ⟨y, hy, hyc⟩
          by_cases hid : (y.id == cid) = true
          · simp only [hid, if_true] at hyc
            subst hyc
            refine ⟨?_, (hg.convs_ok y hy).2⟩
            intro cp hcp
            simp at hcp
            subst hcp
            exact not_le.mp hc0
          · simp only [hid, if_false] at hyc
            subst hyc
            exact hg.convs_ok y hy
        · exact hg.pending_unique

theorem pairwise_ids_map (l : List Affiliate) (g : Affiliate → Affiliate)
    (hid : ∀ x, (g x).id = x.id)
    (h : l.Pairwise (fun x y => x.id ≠ y.id)) :
    (l.map g).Pairwise (fun x y => x.id ≠ y.id) := by
  rw [List.pairwise_map]
  exact h.imp (fun hxy => by simpa [hid] using hxy)

theorem good_removeOrderConv (s : Sys) (cid : Nat) (hg : GoodState s) :
    GoodState (removeOrderConv s cid) := by
  constructor
  · exact hg.bal_nonneg
  · exact hg.ids_distinct
  · exact hg.ids_lt
  · exact hg.orders_ok
  · intro c hc
    exact hg.convs_ok c (List.mem_of_mem_filter hc)
  · exact hg.pending_unique

theorem good_removeWConv (s : Sys) (cid : Nat) (hg : GoodState s) :
    GoodState (removeWConv s cid) := by
  constructor
  · exact hg.bal_nonneg
  · exact hg.ids_distinct
  · exact hg.ids_lt
  · exact hg.orders_ok
  · exact hg.convs_ok
  · exact hg.pending_unique

theorem good_order_selling_price (s : Sys) (cid : Nat) (selling now : ℚ)
    (hg : GoodState s) : GoodState (order_selling_price s cid selling now).1 := by
  unfold order_selling_price
  cases hf : findOrderConv s cid with
  | none => exact hg
  | some conv =>
      have hconv : ConvOK conv :=
        hg.convs_ok conv (List.mem_of_find?_eq_some hf)
      by_cases hs0 : selling ≤ 0
      · simp only [hs0, if_true]; exact hg
      · simp only [hs0, if_false]
        cases hcp : conv.cost_price with
        | none => exact hg
        | some cp =>
            by_cases hsc : selling ≤ cp
            · simp only [hsc, if_true]; exact hg
            · simp only [hsc, if_false]
              cases hfa : findAff s conv.affiliate_id with
              | none => exact good_removeOrderConv _ _ hg
              | some a =>
                  cases hco : conv.country with
                  | none => exact good_removeOrderConv _ _ hg
                  | some co =>
                      apply good_removeOrderConv
                      constructor
                      · intro x hx
                        rcases List.mem_map.mp hx with ⟨y, hy, hyx⟩
                        by_cases hid : (y.id == a.id) = true
                        · simp only [hid, if_true] at hyx
                          subst hyx
                          exact hg.bal_nonneg y hy
                        · simp only [hid, if_false] at hyx
                          subst hyx
                          exact hg.bal_nonneg y hy
                      · refine pairwise_ids_map _ _ ?_ hg.ids_distinct
                        intro x
                        by_cases hid : (x.id == a.id) = true <;> simp [hid]
                      · intro x hx
                        rcases List.mem_map.mp hx with ⟨y, hy, hyx⟩
                        have hylt := hg.ids_lt y hy
                        by_cases hid : (y.id == a.id) = true
                        · simp only [hid, if_true] at hyx
                          subst hyx
                          exact hylt
                        · simp only [hid, if_false] at hyx
                          subst hyx
                          exact hylt
                      · intro o ho
                        rcases List.mem_append.mp ho with h | h
                        · exact hg.orders_ok o h
                        · simp at h
                          subst h
                          have h0cp : 0 < cp := hconv.1 cp hcp
                          refine ⟨h0cp, not_le.mp hsc, rfl, ?_⟩
                          rcases hconv.2 with ⟨hc1, _⟩ | ⟨hc1, hc2⟩ | ⟨hc1, hc2⟩
                          · rw [hco] at hc1; exact absurd hc1 (by simp)
                          · rw [hco] at hc1
                            injection hc1 with hc1
                            exact Or.inl ⟨hc1, by simp [hc2]⟩
                          · rw [hco] at hc1
                            injection hc1 with hc1
                            exact Or.inr ⟨hc1, by simp [hc2]⟩
                      · exact hg.convs_ok
                      · exact hg.pending_unique

theorem good_start_withdrawal (cfg : Config) (s : Sys) (tg : Nat)
    (hg : GoodState s) : GoodState (start_withdrawal cfg s tg).1 := by
  unfold start_withdrawal
  cases hf : findAffByTg s tg with
  | none => exact hg
  | some a =>
      by_cases hpend : (pendingWithdrawalsFor s a.id).isEmpty = true
      · simp only [hpend, if_true]
        by_cases hmin : a.balance < cfg.min_withdrawal_amount
        · simp only [hmin, if_true]; exact hg
        · simp only [hmin, if_false]
          exact ⟨hg.bal_nonneg, hg.ids_distinct, hg.ids_lt, hg.orders_ok,
            hg.convs_ok, hg.pending_unique⟩
      · simp only [hpend, if_false]
        exact hg

theorem good_withdrawal_amount (cfg : Config) (s : Sys) (cid : Nat) (amt : ℚ)
    (hg : GoodState s) : GoodState (withdrawal_amount cfg s cid amt).1 := by
  unfold withdrawal_amount
  cases hf : findWConv s cid with
  | none => exact hg
  | some c =>
      by_cases h1 : amt ≤ 0
      · simp only [h1, if_true]; exact hg
      · simp only [h1, if_false]
        by_cases h2 : c.cached_balance < amt
        · simp only [h2, if_true]; exact hg
        · simp only [h2, if_false]
          by_cases h3 : amt < cfg.min_withdrawal_amount
          · simp only [h3, if_true]; exact hg
          · simp only [h3, if_false]
            exact ⟨hg.bal_nonneg, hg.ids_distinct, hg.ids_lt, hg.orders_ok,
              hg.convs_ok, hg.pending_unique⟩

theorem good_withdrawal_phone (s : Sys) (cid : Nat) (phone : String) (now : ℚ)
    (hg : GoodState s) : GoodState (withdrawal_phone s cid phone now).1 := by
  unfold withdrawal_phone
  cases hf : findWConv s cid with
  | none => exact hg
  | some c =>
      dsimp only
      cases hfa : findAff s c.affiliate_id with
      | none => exact good_removeWConv _ _ hg
      | some a =>
          dsimp only
          cases hamt : c.amount with
          | none => exact good_removeWConv _ _ hg
          | some amt =>
              dsimp only
              by_cases h1 : a.balance < amt
              · simp only [h1, if_true]
                exact good_removeWConv _ _ hg
              · simp only [h1, if_false]
                by_cases h2 : (pendingWithdrawalsFor s a.id).isEmpty = true
                · simp only [h2, if_true]
                  apply good_removeWConv
                  constructor
                  · exact hg.bal_nonneg
                  · exact hg.ids_distinct
                  · exact hg.ids_lt
                  · exact hg.orders_ok
                  · exact hg.convs_ok
                  · intro aid
                    have hnil : pendingWithdrawalsFor s a.id = [] :=
                      List.isEmpty_iff.mp h2
                    simp only [pendingWithdrawalsFor, List.filter_append]
                    by_cases haid : a.id = aid
                    · subst haid
                      have : pendingWithdrawalsFor s a.id = [] := hnil
                      simp only [pendingWithdrawalsFor] at this
                      simp [this]
                    · have hne : (a.id == aid) = false := by
                        simpa using haid
                      have hpu := hg.pending_unique aid
                      simp only [pendingWithdrawalsFor] at hpu
                      simpa [List.filter, hne] using hpu
                · simp only [h2, if_false]
                  exact good_removeWConv _ _ hg

theorem good_handle_order_status (s : Sys) (act : OrderAct) (oid : Nat)
    (hg : GoodState s) :
    GoodState (handle_order_status_callback s act oid).1 := by
  unfold handle_order_status_callback
  cases hf : findOrder s oid with
  | none => exact hg
  | some o =>
      dsimp only
      by_cases hst : o.status = OrderStatus.pending
      · simp only [hst, if_true]
        cases hfa : findAff s o.affiliate_id with
        | none => exact hg
        | some a =>
            dsimp only
            cases hc1 : convert_to_usd o.commission o.currency with
            | error e =>
                cases hc2 : convert_to_usd o.selling_price o.currency with
                | error e2 => exact hg
                | ok us => exact hg
            | ok uc =>
                cases hc2 : convert_to_usd o.selling_price o.currency with
                | error e => exact hg
                | ok us =>
                    have hook : OrderOK o :=
                      hg.orders_ok o (List.mem_of_find?_eq_some hf)
                    have hcomm : 0 ≤ o.commission := by
                      rw [hook.2.2.1]
                      exact sub_nonneg.mpr hook.2.1.le
                    have huc : 0 ≤ uc := convert_to_usd_nonneg hc1 hcomm
                    cases act with
                    | delivered =>
                        constructor
                        · intro x hx
                          rcases List.mem_map.mp hx with ⟨y, hy, hyx⟩
                          by_cases hid : (y.id == a.id) = true
                          · simp only [hid, if_true] at hyx
                            subst hyx
                            exact add_nonneg (hg.bal_nonneg y hy) huc
                          · simp only [hid, if_false] at hyx
                            subst hyx
                            exact hg.bal_nonneg y hy
                        · refine pairwise_ids_map _ _ ?_ hg.ids_distinct
                          intro x
                          by_cases hid : (x.id == a.id) = true <;> simp [hid]
                        · intro x hx
                          rcases List.mem_map.mp hx with ⟨y, hy, hyx⟩
                          have hylt := hg.ids_lt y hy
                          by_cases hid : (y.id == a.id) = true
                          · simp only [hid, if_true] at hyx
                            subst hyx; exact hylt
                          · simp only [hid, if_false] at hyx
                            subst hyx; exact hylt
                        · intro x hx
                          rcases List.mem_map.mp hx with ⟨y, hy, hyx⟩
                          have hyok := hg.orders_ok y hy
                          by_cases hid : (y.id == oid) = true
                          · simp only [hid, if_true] at hyx
                            subst hyx; exact hyok
                          · simp only [hid, if_false] at hyx
                            subst hyx; exact hyok
                        · exact hg.convs_ok
                        · exact hg.pending_unique
                    | issue =>
                        constructor
                        · exact hg.bal_nonneg
                        · exact hg.ids_distinct
                        · exact hg.ids_lt
                        · intro x hx
                          rcases List.mem_map.mp hx with ⟨y, hy, hyx⟩
                          have hyok := hg.orders_ok y hy
                          by_cases hid : (y.id == oid) = true
                          · simp only [hid, if_true] at hyx
                            subst hyx; exact hyok
                          · simp only [hid, if_false] at hyx
                            subst hyx; exact hyok
                        · exact hg.convs_ok
                        · exact hg.pending_unique
      · simp only [hst, if_false]
        exact hg

theorem good_handle_withdrawal (s : Sys) (act : WAct) (wid adminId : Nat)
    (now : ℚ) (hg : GoodState s) :
    GoodState (handle_withdrawal_callback s act wid adminId now).1 := by
  unfold handle_withdrawal_callback
  cases hf : findWithdrawal s wid with
  | none => exact hg
  | some w =>
      dsimp only
      by_cases hst : w.status = WStatus.pending
      · simp only [hst, if_true]
        cases hfa : findAff s w.affiliate_id with
        | none => exact hg
        | some a =>
            dsimp only
            have hamem : a ∈ s.affiliates := List.mem_of_find?_eq_some hfa
            cases act with
            | approve =>
                by_cases hbal : a.balance < w.amount
                · simp only [hbal, if_true]; exact hg
                · simp only [hbal, if_false]
                  constructor
                  · intro x hx
                    rcases List.mem_map.mp hx with ⟨y, hy, hyx⟩
                    by_cases hid : (y.id == a.id) = true
                    · simp only [hid, if_true] at hyx
                      subst hyx
                      have hya : y = a :=
                        eq_of_mem_ids_distinct hg.ids_distinct y hy a hamem
                          (by simpa using hid)
                      rw [hya]
                      exact sub_nonneg.mpr (not_lt.mp hbal)
                    · simp only [hid, if_false] at hyx
                      subst hyx
                      exact hg.bal_nonneg y hy
                  · refine pairwise_ids_map _ _ ?_ hg.ids_distinct
                    intro x
                    by_cases hid : (x.id == a.id) = true <;> simp [hid]
                  · intro x hx
                    rcases List.mem_map.mp hx with ⟨y, hy, hyx⟩
                    have hylt := hg.ids_lt y hy
                    by_cases hid : (y.id == a.id) = true
                    · simp only [hid, if_true] at hyx
                      subst hyx; exact hylt
                    · simp only [hid, if_false] at hyx
                      subst hyx; exact hylt
                  · exact hg.orders_ok
                  · exact hg.convs_ok
                  · intro aid
                    have hle := hg.pending_unique aid
                    refine le_trans ?_ hle
                    simp only [pendingWithdrawalsFor]
                    apply length_filter_map_le
                    intro x hx
                    by_cases hid : (x.id == wid) = true
                    · simp only [hid, if_true] at hx
                      simp at hx
                    · simp only [hid, if_false] at hx
                      exact hx
            | reject =>
                constructor
                · exact hg.bal_nonneg
                · exact hg.ids_distinct
                · exact hg.ids_lt
                · exact hg.orders_ok
                · exact hg.convs_ok
                · intro aid
                  have hle := hg.pending_unique aid
                  refine le_trans ?_ hle
                  simp only [pendingWithdrawalsFor]
                  apply length_filter_map_le
                  intro x hx
                  by_cases hid : (x.id == wid) = true
                  · simp only [hid, if_true] at hx
                    simp at hx
                  · simp only [hid, if_false] at hx
                    exact hx
      · simp only [hst, if_false]
        exact hg

/-- Every handler preserves the invariant. -/
theorem good_step (cfg : Config) (e : Event) (s : Sys) (hg : GoodState s) :
    GoodState (step cfg e s).1 := by
  cases e with
  | register tg n p st => exact good_register s tg n p st hg
  | startOrder tg now => exact good_start_order cfg s tg now hg
  | orderCountry cid co => exact good_order_country s cid co hg
  | orderCostPrice cid c => exact good_order_cost_price s cid c hg
  | orderSellingPrice cid sp now => exact good_order_selling_price s cid sp now hg
  | startWithdrawal tg => exact good_start_withdrawal cfg s tg hg
  | withdrawalAmount cid amt => exact good_withdrawal_amount cfg s cid amt hg
  | withdrawalPhone cid ph now => exact good_withdrawal_phone s cid ph now hg
  | orderStatus act oid => exact good_handle_order_status s act oid hg
  | withdrawalAction act wid adm now => exact good_handle_withdrawal s act wid adm now hg

theorem good_run (cfg : Config) (es : List Event) : GoodState (run cfg es) := by
  suffices h : ∀ s0 : Sys, GoodState s0 →
      GoodState (es.foldl (fun s e => (step cfg e s).1) s0) by
    exact h Sys.init goodState_init
  induction es with
  | nil => intro s0 h0; exact h0
  | cons e t ih =>
      intro s0 h0
      exact ih _ (good_step cfg e s0 h0)

/-- Every reachable state satisfies the invariant. -/
theorem reachable_good {cfg : Config} {s : Sys} (h : Reachable cfg s) :
    GoodState s := by
  obtain ⟨es, rfl⟩ := h
  exact good_run cfg es

/-! ### Functional specifications of the terminal transitions -/

theorem delivered_spec (s : Sys) (oid : Nat) (o : Order) (a : Affiliate)
    (uc us : ℚ)
    (hf : findOrder s oid = some o) (hst : o.status = OrderStatus.pending)
    (hfa : findAff s o.affiliate_id = some a)
    (hc1 : convert_to_usd o.commission o.currency = .ok uc)
    (hc2 : convert_to_usd o.selling_price o.currency = .ok us) :
    (handle_order_status_callback s .delivered oid).2 = Res.ok ∧
    findOrder (handle_order_status_callback s .delivered oid).1 oid
      = some { o with status := OrderStatus.delivered } ∧
    findAff (handle_order_status_callback s .delivered oid).1 o.affiliate_id
      = some { a with balance := a.balance + uc,
                      total_earnings := a.total_earnings + uc,
                      total_sales := a.total_sales + us } ∧
    (handle_order_status_callback s .delivered oid).1.withdrawals
      = s.withdrawals ∧
    (∀ oid2, oid2 ≠ oid →
      findOrder (handle_order_status_callback s .delivered oid).1 oid2
        = findOrder s oid2) ∧
    (∀ aid2, aid2 ≠ o.affiliate_id →
      findAff (handle_order_status_callback s .delivered oid).1 aid2
        = findAff s aid2) := by
  have hpo : (o.id == oid) = true := by
    have h := List.find?_some
      (show s.orders.find? (fun x => x.id == oid) = some o from hf)
    simpa using h
  have hpa : (a.id == o.affiliate_id) = true := by
    have h := List.find?_some
      (show s.affiliates.find? (fun x => x.id == o.affiliate_id) = some a from hfa)
    simpa using h
  have ho : o.id = oid := by simpa using hpo
  have ha2 : a.id = o.affiliate_id := by simpa using hpa
  unfold handle_order_status_callback
  rw [hf]
  dsimp only
  rw [if_pos hst, hfa, hc1, hc2]
  dsimp only
  refine ⟨rfl, ?_, ?_, rfl, ?_, ?_⟩
  · unfold findOrder
    dsimp only
    rw [find?_map_pred _ _ (fun x => by by_cases h : (x.id == oid) = true <;> simp [h])]
    rw [show s.orders.find? (fun x => x.id == oid) = some o from hf]
    simp [ho]
  · unfold findAff
    dsimp only
    rw [find?_map_pred _ _ (fun x => by by_cases h : (x.id == a.id) = true <;> simp [h])]
    rw [show s.affiliates.find? (fun x => x.id == o.affiliate_id) = some a from hfa]
    simp [ha2]
  · intro oid2 hne
    unfold findOrder
    dsimp only
    rw [find?_map_fix _ _
      (fun x => by by_cases h : (x.id == oid) = true <;> simp [h])
      (fun x hx => by
        have hxid : x.id = oid2 := by simpa using hx
        have : (x.id == oid) = false := by simp [hxid, hne]
        simp [this])]
  · intro aid2 hne
    unfold findAff
    dsimp only
    rw [find?_map_fix _ _
      (fun x => by by_cases h : (x.id == a.id) = true <;> simp [h])
      (fun x hx => by
        have hxid : x.id = aid2 := by simpa using hx
        have : (x.id == a.id) = false := by
          simp [hxid]
          intro hcon
          exact hne (hcon ▸ ha2)
        simp [this])]

theorem issue_spec (s : Sys) (oid : Nat) (o : Order) (a : Affiliate)
    (uc us : ℚ)
    (hf : findOrder s oid = some o) (hst : o.status = OrderStatus.pending)
    (hfa : findAff s o.affiliate_id = some a)
    (hc1 : convert_to_usd o.commission o.currency = .ok uc)
    (hc2 : convert_to_usd o.selling_price o.currency = .ok us) :
    (handle_order_status_callback s .issue oid).2 = Res.ok ∧
    (handle_order_status_callback s .issue oid).1.affiliates = s.affiliates ∧
    (handle_order_status_callback s .issue oid).1.withdrawals = s.withdrawals ∧
    findOrder (handle_order_status_callback s .issue oid).1 oid
      = some { o with status := OrderStatus.issue } ∧
    (∀ oid2, oid2 ≠ oid →
      findOrder (handle_order_status_callback s .issue oid).1 oid2
        = findOrder s oid2) := by
  have hpo : (o.id == oid) = true := by
    have h := List.find?_some
      (show s.orders.find? (fun x => x.id == oid) = some o from hf)
    simpa using h
  have ho : o.id = oid := by simpa using hpo
  unfold handle_order_status_callback
  rw [hf]
  dsimp only
  rw [if_pos hst, hfa, hc1, hc2]
  dsimp only
  refine ⟨rfl, rfl, rfl, ?_, ?_⟩
  · unfold findOrder
    dsimp only
    rw [find?_map_pred _ _ (fun x => by by_cases h : (x.id == oid) = true <;> simp [h])]
    rw [show s.orders.find? (fun x => x.id == oid) = some o from hf]
    simp [ho]
  · intro oid2 hne
    unfold findOrder
    dsimp only
    rw [find?_map_fix _ _
      (fun x => by by_cases h : (x.id == oid) = true <;> simp [h])
      (fun x hx => by
        have hxid : x.id = oid2 := by simpa using hx
        have : (x.id == oid) = false := by simp [hxid, hne]
        simp [this])]

theorem order_status_nonpending (s : Sys) (act : OrderAct) (oid : Nat)
    (o : Order) (hf : findOrder s oid = some o)
    (hst : o.status ≠ OrderStatus.pending) :
    handle_order_status_callback s act oid = (s, .alreadyProcessed o.status.str) := by
  unfold handle_order_status_callback
  rw [hf]
  dsimp only
  rw [if_neg hst]

theorem withdrawal_nonpending (s : Sys) (act : WAct) (wid adminId : Nat)
    (now : ℚ) (w : Withdrawal) (hf : findWithdrawal s wid = some w)
    (hst : w.status ≠ WStatus.pending) :
    handle_withdrawal_callback s act wid adminId now
      = (s, .alreadyProcessed w.status.str) := by
  unfold handle_withdrawal_callback
  rw [hf]
  dsimp only
  rw [if_neg hst]

theorem approve_spec (s : Sys) (wid adminId : Nat) (now : ℚ)
    (w : Withdrawal) (a : Affiliate)
    (hf : findWithdrawal s wid = some w) (hst : w.status = WStatus.pending)
    (hfa : findAff s w.affiliate_id = some a)
    (hbal : w.amount ≤ a.balance) :
    (handle_withdrawal_callback s .approve wid adminId now).2 = Res.ok ∧
    findAff (handle_withdrawal_callback s .approve wid adminId now).1
        w.affiliate_id
      = some { a with balance := a.balance - w.amount } ∧
    findWithdrawal (handle_withdrawal_callback s .approve wid adminId now).1 wid
      = some { w with status := WStatus.approved,
                      processed_at := some now,
                      processed_by_admin_id := some adminId } ∧
    (handle_withdrawal_callback s .approve wid adminId now).1.orders
      = s.orders ∧
    (∀ aid2, aid2 ≠ w.affiliate_id →
      findAff (handle_withdrawal_callback s .approve wid adminId now).1 aid2
        = findAff s aid2) ∧
    (∀ wid2, wid2 ≠ wid →
      findWithdrawal (handle_withdrawal_callback s .approve wid adminId now).1 wid2
        = findWithdrawal s wid2) := by
  have hpw : (w.id == wid) = true := by
    have h := List.find?_some
      (show s.withdrawals.find? (fun x => x.id == wid) = some w from hf)
    simpa using h
  have hpa : (a.id == w.affiliate_id) = true := by
    have h := List.find?_some
      (show s.affiliates.find? (fun x => x.id == w.affiliate_id) = some a from hfa)
    simpa using h
  have hw : w.id = wid := by simpa using hpw
  have ha2 : a.id = w.affiliate_id := by simpa using hpa
  unfold handle_withdrawal_callback
  rw [hf]
  dsimp only
  rw [if_pos hst, hfa]
  dsimp only
  rw [if_neg (not_lt.mpr hbal)]
  refine ⟨rfl, ?_, ?_, rfl, ?_, ?_⟩
  · unfold findAff
    dsimp only
    rw [find?_map_pred _ _ (fun x => by by_cases h : (x.id == a.id) = true <;> simp [h])]
    rw [show s.affiliates.find? (fun x => x.id == w.affiliate_id) = some a from hfa]
    simp [ha2]
  · unfold findWithdrawal
    dsimp only
    rw [find?_map_pred _ _ (fun x => by by_cases h : (x.id == wid) = true <;> simp [h])]
    rw [show s.withdrawals.find? (fun x => x.id == wid) = some w from hf]
    simp [hw]
  · intro aid2 hne
    unfold findAff
    dsimp only
    rw [find?_map_fix _ _
      (fun x => by by_cases h : (x.id == a.id) = true <;> simp [h])
      (fun x hx => by
        have hxid : x.id = aid2 := by simpa using hx
        have : (x.id == a.id) = false := by
          simp [hxid]
          intro hcon
          exact hne (hcon ▸ ha2)
        simp [this])]
  · intro wid2 hne
    unfold findWithdrawal
    dsimp only
    rw [find?_map_fix _ _
      (fun x => by by_cases h : (x.id == wid) = true <;> simp [h])
      (fun x hx => by
        have hxid : x.id = wid2 := by simpa using hx
        have : (x.id == wid) = false := by simp [hxid, hne]
        simp [this])]

theorem reject_spec (s : Sys) (wid adminId : Nat) (now : ℚ)
    (w : Withdrawal) (a : Affiliate)
    (hf : findWithdrawal s wid = some w) (hst : w.status = WStatus.pending)
    (hfa : findAff s w.affiliate_id = some a) :
    (handle_withdrawal_callback s .reject wid adminId now).2 = Res.ok ∧
    (handle_withdrawal_callback s .reject wid adminId now).1.affiliates
      = s.affiliates ∧
    (handle_withdrawal_callback s .reject wid adminId now).1.orders
      = s.orders ∧
    findWithdrawal (handle_withdrawal_callback s .reject wid adminId now).1 wid
      = some { w with status := WStatus.rejected,
                      processed_at := some now,
                      processed_by_admin_id := some adminId } := by
  have hpw : (w.id == wid) = true := by
    have h := List.find?_some
      (show s.withdrawals.find? (fun x => x.id == wid) = some w from hf)
    simpa using h
  have hw : w.id = wid := by simpa using hpw
  unfold handle_withdrawal_callback
  rw [hf]
  dsimp only
  rw [if_pos hst, hfa]
  dsimp only
  refine ⟨rfl, rfl, rfl, ?_⟩
  unfold findWithdrawal
  dsimp only
  rw [find?_map_pred _ _ (fun x => by by_cases h : (x.id == wid) = true <;> simp [h])]
  rw [show s.withdrawals.find? (fun x => x.id == wid) = some w from hf]
  simp [hw]

theorem withdrawal_phone_spec (s : Sys) (cid : Nat) (phone : String) (now : ℚ)
    (c : WithdrawalConv) (a : Affiliate) (amt : ℚ)
    (hc : findWConv s cid = some c)
    (hfa : findAff s c.affiliate_id = some a)
    (hamt : c.amount = some amt)
    (hbal : amt ≤ a.balance)
    (hpend : pendingWithdrawalsFor s a.id = []) :
    (withdrawal_phone s cid phone now).2 = Res.ok ∧
    (withdrawal_phone s cid phone now).1.affiliates = s.affiliates ∧
    (withdrawal_phone s cid phone now).1.orders = s.orders ∧
    (withdrawal_phone s cid phone now).1.withdrawals
      = s.withdrawals ++
        [⟨s.nextWId, a.id, amt, phone, "USD", .pending, now, none, none⟩] := by
  unfold withdrawal_phone
  rw [hc]
  dsimp only
  rw [hfa]
  dsimp only
  rw [hamt]
  dsimp only
  rw [if_neg (not_lt.mpr hbal)]
  rw [if_pos (by simp [hpend])]
  exact ⟨rfl, rfl, rfl, rfl⟩

/-!
### Refined model: the shared per-user `context.user_data` dict

In the source, `context.user_data` is a single dict per Telegram user,
shared by every conversation that user holds (the order and withdrawal flows
even share the key `affiliate_id`, written at src/main.py:295 and :507), and
`user_data.clear()` — run in particular by `order_selling_price`'s `finally`
(src/main.py:448) — wipes it for all of them at once.  Conversation state,
by contrast, is tracked per (user, chat), so one user can hold several
conversations across chats.  This namespace renders that faithfully: a
`UserData` record of optional dict entries per user, a `Stage` per
(user, chat), handlers that read and write the shared record exactly where
the source does, and an order insert that succeeds only when every not-null
column's field is present in the dict (a missing field makes the insert
raise and roll back; a missing `affiliate_id` makes the affiliate lookup
come back empty, src/main.py:398,412-415). -/

namespace UD

/-- The keys of `context.user_data` that the modelled handlers read or
write; `none` is an absent key. -/
structure UserData where
  affiliate_id : Option Nat := none
  order_customer_name : Option String := none
  order_customer_phone : Option String := none
  order_address : Option String := none
  order_city : Option String := none
  order_country : Option String := none
  order_currency : Option String := none
  order_product : Option String := none
  order_product_code : Option String := none
  order_cost_price : Option ℚ := none
  affiliate_balance : Option ℚ := none
  withdrawal_currency : Option String := none
deriving DecidableEq

/-- `ConversationHandler` state of one (user, chat) pair: which handler the
next text message is routed to. -/
inductive Stage where
  | idle
  | orderCustomerName
  | orderCountry
  | orderCustomerPhone
  | orderAddress
  | orderCity
  | orderProduct
  | orderProductCode
  | orderCostPrice
  | orderSellingPrice
  | withdrawalAmount
deriving DecidableEq

/-- Store plus the shared per-user dicts and the per-(user, chat)
conversation states. -/
structure Sys where
  affiliates : List Affiliate
  orders : List Order
  withdrawals : List Withdrawal
  userData : List (Nat × UserData)
  stages : List (Nat × Nat × Stage)
  nextAffId : Nat
  nextOrderId : Nat
deriving DecidableEq

/-- Empty store, no dicts, every conversation idle. -/
def Sys.init : Sys := ⟨[], [], [], [], [], 1, 1⟩

/-- `context.user_data` of one user (a fresh empty dict when the user has
none yet, as in the source). -/
def getUD (s : Sys) (tg : Nat) : UserData :=
  ((s.userData.find? (fun p => p.1 == tg)).map Prod.snd).getD {}

/-- Replace one user's dict. -/
def setUD (s : Sys) (tg : Nat) (ud : UserData) : Sys :=
  { s with userData := (tg, ud) :: s.userData.filter (fun p => !(p.1 == tg)) }

/-- Conversation state of one (user, chat) pair (idle when none). -/
def getStage (s : Sys) (tg chat : Nat) : Stage :=
  ((s.stages.find? (fun p => p.1 == tg && p.2.1 == chat)).map
    (fun p => p.2.2)).getD .idle

/-- Replace the conversation state of one (user, chat) pair. -/
def setStage (s : Sys) (tg chat : Nat) (st : Stage) : Sys :=
  { s with stages := (tg, chat, st) ::
      s.stages.filter (fun p => !(p.1 == tg && p.2.1 == chat)) }

/-- `select(Affiliate).where(Affiliate.telegram_id == user_id)`. -/
def findAffByTg (s : Sys) (tg : Nat) : Option Affiliate :=
  s.affiliates.find? (fun a => a.telegram_id == tg)

/-- `select(Affiliate).where(Affiliate.id == affiliate_id)`. -/
def findAff (s : Sys) (aid : Nat) : Option Affiliate :=
  s.affiliates.find? (fun a => a.id == aid)

/-- The pending withdrawals of one affiliate. -/
def pendingWithdrawalsFor (s : Sys) (aid : Nat) : List Withdrawal :=
  s.withdrawals.filter (fun w => w.affiliate_id == aid && w.status == WStatus.pending)

/-- The count computed by `rate_limit_check`. -/
def ordersInWindow (s : Sys) (aid : Nat) (now : ℚ) : Nat :=
  (s.orders.filter (fun o =>
    o.affiliate_id == aid && decide (now - 60 ≤ o.created_at))).length

/-- `rate_limit_check`: `count < RATE_LIMIT_PER_MINUTE`. -/
def rate_limit_check (cfg : Config) (s : Sys) (aid : Nat) (now : ℚ) : Bool :=
  ordersInWindow s aid now < cfg.rate_limit_per_minute

/-- `validate_customer_phone` (src/main.py:144-151): `+966` plus nine digits
for Saudi Arabia, `+971` plus nine digits for the UAE, false for anything
else (in particular when the country key is absent). -/
def validate_customer_phone (phone country : String) : Bool :=
  if country = "Saudi Arabia" then
    match phone.toList with
    | '+' :: '9' :: '6' :: '6' :: rest =>
        rest.length == 9 && rest.all (fun c => c.isDigit)
    | _ => false
  else if country = "UAE" then
    match phone.toList with
    | '+' :: '9' :: '7' :: '1' :: rest =>
        rest.length == 9 && rest.all (fun c => c.isDigit)
    | _ => false
  else false

/-- `register_store_name`: inserts the affiliate (rolled back when the
`telegram_id` already exists) and in both cases runs the `finally` clause's
`user_data.clear()`; the registration conversation ends. -/
def register_store_name (s : Sys) (tg chat : Nat)
    (name phone store : String) : Sys × Res :=
  match findAffByTg s tg with
  | some _ => (setStage (setUD s tg {}) tg chat .idle, .duplicateIdentity)
  | none =>
      (setStage
        (setUD
          { s with
              affiliates := s.affiliates ++
                [⟨s.nextAffId, tg, name, phone, store, 0, 0, 0, 0⟩],
              nextAffId := s.nextAffId + 1 } tg {}) tg chat .idle, .ok)

/-- `start_order` (src/main.py:284-297): entry point of an order
conversation in this chat; requires a registered affiliate and a passing
`rate_limit_check`, then writes ONLY `user_data['affiliate_id']` (line 295,
leaving any other keys as they are) and moves this chat to the
customer-name step. -/
def start_order (cfg : Config) (s : Sys) (tg chat : Nat) (now : ℚ) :
    Sys × Res :=
  if getStage s tg chat = Stage.idle then
    match findAffByTg s tg with
    | none => (s, .notRegistered)
    | some a =>
        if rate_limit_check cfg s a.id now then
          (setStage (setUD s tg { getUD s tg with affiliate_id := some a.id })
            tg chat .orderCustomerName, .ok)
        else (s, .rateLimited)
  else (s, .convNotFound)

/-- `order_customer_name` (src/main.py:299-306). -/
def order_customer_name (s : Sys) (tg chat : Nat) (name : String) :
    Sys × Res :=
  if getStage s tg chat = Stage.orderCustomerName then
    if name.length < 2 then (s, .invalidInput)
    else
      (setStage
        (setUD s tg { getUD s tg with order_customer_name := some name })
        tg chat .orderCountry, .ok)
  else (s, .convNotFound)

/-- `order_country` (src/main.py:308-320): the two keyboard labels map to
`"Saudi Arabia"` and `"UAE"` (the argument is the mapped value); stores the
country together with `get_currency_for_country(country)`. -/
def order_country (s : Sys) (tg chat : Nat) (country : String) : Sys × Res :=
  if getStage s tg chat = Stage.orderCountry then
    if country = "Saudi Arabia" ∨ country = "UAE" then
      (setStage
        (setUD s tg
          { getUD s tg with
              order_country := some country,
              order_currency := some (get_currency_for_country country) })
        tg chat .orderCustomerPhone, .ok)
    else (s, .invalidInput)
  else (s, .convNotFound)

/-- `order_customer_phone` (src/main.py:322-330): validates against the
country currently in the shared dict (absent country fails validation). -/
def order_customer_phone (s : Sys) (tg chat : Nat) (phone : String) :
    Sys × Res :=
  if getStage s tg chat = Stage.orderCustomerPhone then
    if (match (getUD s tg).order_country with
        | some c => validate_customer_phone phone c
        | none => false) then
      (setStage
        (setUD s tg { getUD s tg with order_customer_phone := some phone })
        tg chat .orderAddress, .ok)
    else (s, .invalidInput)
  else (s, .convNotFound)

/-- `order_address` (src/main.py:332-339). -/
def order_address (s : Sys) (tg chat : Nat) (address : String) : Sys × Res :=
  if getStage s tg chat = Stage.orderAddress then
    if address.length < 5 then (s, .invalidInput)
    else
      (setStage (setUD s tg { getUD s tg with order_address := some address })
        tg chat .orderCity, .ok)
  else (s, .convNotFound)

/-- `order_city` (src/main.py:341-348). -/
def order_city (s : Sys) (tg chat : Nat) (city : String) : Sys × Res :=
  if getStage s tg chat = Stage.orderCity then
    if city.length < 2 then (s, .invalidInput)
    else
      (setStage (setUD s tg { getUD s tg with order_city := some city })
        tg chat .orderProduct, .ok)
  else (s, .convNotFound)

/-- `order_product` (src/main.py:350-357). -/
def order_product (s : Sys) (tg chat : Nat) (product : String) : Sys × Res :=
  if getStage s tg chat = Stage.orderProduct then
    if product.length < 2 then (s, .invalidInput)
    else
      (setStage (setUD s tg { getUD s tg with order_product := some product })
        tg chat .orderProductCode, .ok)
  else (s, .convNotFound)

/-- `order_product_code` (src/main.py:359-367). -/
def order_product_code (s : Sys) (tg chat : Nat) (code : String) :
    Sys × Res :=
  if getStage s tg chat = Stage.orderProductCode then
    if code.isEmpty then (s, .invalidInput)
    else
      (setStage
        (setUD s tg { getUD s tg with order_product_code := some code })
        tg chat .orderCostPrice, .ok)
  else (s, .convNotFound)

/-- `order_cost_price` (src/main.py:369-381). -/
def order_cost_price (s : Sys) (tg chat : Nat) (cost : ℚ) : Sys × Res :=
  if getStage s tg chat = Stage.orderCostPrice then
    if cost ≤ 0 then (s, .invalidPricing)
    else
      (setStage (setUD s tg { getUD s tg with order_cost_price := some cost })
        tg chat .orderSellingPrice, .ok)
  else (s, .convNotFound)

/-- `order_selling_price` (src/main.py:383-449): validates
`selling_price > 0` and `selling_price > cost_price` against the SHARED
dict's cost (a missing cost raises before any write and clears nothing);
a missing or dangling `affiliate_id` finds no affiliate, replies, clears
the dict and ends (src/main.py:398,410-415); a missing not-null field makes
the insert fail and roll back, with the dict cleared by the `finally`
(src/main.py:443-448); otherwise it inserts the order and increments
`total_orders` in one transaction, then clears the dict.  It never invokes
`rate_limit_check`. -/
def order_selling_price (s : Sys) (tg chat : Nat) (selling now : ℚ) :
    Sys × Res :=
  if getStage s tg chat = Stage.orderSellingPrice then
    if selling ≤ 0 then (s, .invalidPricing)
    else
      match (getUD s tg).order_cost_price with
      | none => (s, .exn "cost price missing")
      | some cp =>
          if selling ≤ cp then (s, .invalidPricing)
          else
            match (getUD s tg).affiliate_id with
            | none => (setStage (setUD s tg {}) tg chat .idle, .notRegistered)
            | some aid =>
                match findAff s aid with
                | none =>
                    (setStage (setUD s tg {}) tg chat .idle, .notRegistered)
                | some a =>
                    match (getUD s tg).order_customer_name,
                          (getUD s tg).order_customer_phone,
                          (getUD s tg).order_address,
                          (getUD s tg).order_city,
                          (getUD s tg).order_country,
                          (getUD s tg).order_product,
                          (getUD s tg).order_product_code with
                    | some _, some _, some _, some _, some co, some _, some _ =>
                        let cu := (getUD s tg).order_currency.getD "SAR"
                        let o : Order :=
                          ⟨s.nextOrderId, a.id, co, cu, cp, selling,
                            selling - cp, .pending, now⟩
                        let s1 : Sys :=
                          { s with
                              orders := s.orders ++ [o],
                              affiliates := s.affiliates.map (fun x =>
                                if x.id == a.id then
                                  { x with total_orders := x.total_orders + 1 }
                                else x),
                              nextOrderId := s.nextOrderId + 1 }
                        (setStage (setUD s1 tg {}) tg chat .idle, .ok)
                    | _, _, _, _, _, _, _ =>
                        (setStage (setUD s tg {}) tg chat .idle,
                          .exn "not-null column missing")
  else (s, .convNotFound)

/-- `start_withdrawal` (src/main.py:481-512): requires a registered
affiliate, no pending withdrawal, and `balance ≥ MIN_WITHDRAWAL_AMOUNT`;
then writes `affiliate_id`, `affiliate_balance` and `withdrawal_currency`
into the SHARED dict (lines 507-510) — with NO rate-limit check — and moves
this chat to the amount step. -/
def start_withdrawal (cfg : Config) (s : Sys) (tg chat : Nat) : Sys × Res :=
  if getStage s tg chat = Stage.idle then
    match findAffByTg s tg with
    | none => (s, .notRegistered)
    | some a =>
        if (pendingWithdrawalsFor s a.id).isEmpty then
          if a.balance < cfg.min_withdrawal_amount then (s, .belowMinimum)
          else
            (setStage
              (setUD s tg
                { getUD s tg with
                    affiliate_id := some a.id,
                    affiliate_balance := some a.balance,
                    withdrawal_currency := some "USD" })
              tg chat .withdrawalAmount, .ok)
        else (s, .duplicatePending)
  else (s, .convNotFound)

/-- One handler invocation on the refined model. -/
inductive Event where
  | register (tg chat : Nat) (name phone store : String)
  | startOrder (tg chat : Nat) (now : ℚ)
  | orderCustomerName (tg chat : Nat) (name : String)
  | orderCountry (tg chat : Nat) (country : String)
  | orderCustomerPhone (tg chat : Nat) (phone : String)
  | orderAddress (tg chat : Nat) (address : String)
  | orderCity (tg chat : Nat) (city : String)
  | orderProduct (tg chat : Nat) (product : String)
  | orderProductCode (tg chat : Nat) (code : String)
  | orderCostPrice (tg chat : Nat) (cost : ℚ)
  | orderSellingPrice (tg chat : Nat) (selling : ℚ) (now : ℚ)
  | startWithdrawal (tg chat : Nat)

/-- Dispatch one event to its handler. -/
def step (cfg : Config) (e : Event) (s : Sys) : Sys × Res :=
  match e with
  | .register tg ch n p st => register_store_name s tg ch n p st
  | .startOrder tg ch now => start_order cfg s tg ch now
  | .orderCustomerName tg ch n => order_customer_name s tg ch n
  | .orderCountry tg ch co => order_country s tg ch co
  | .orderCustomerPhone tg ch p => order_customer_phone s tg ch p
  | .orderAddress tg ch a => order_address s tg ch a
  | .orderCity tg ch c => order_city s tg ch c
  | .orderProduct tg ch p => order_product s tg ch p
  | .orderProductCode tg ch c => order_product_code s tg ch c
  | .orderCostPrice tg ch c => order_cost_price s tg ch c
  | .orderSellingPrice tg ch sp now => order_selling_price s tg ch sp now
  | .startWithdrawal tg ch => start_withdrawal cfg s tg ch

/-- Run a sequence of events from the empty store. -/
def run (cfg : Config) (es : List Event) : Sys :=
  es.foldl (fun s e => (step cfg e s).1) Sys.init

/-- A refined-model state is reachable when some event sequence produces
it. -/
def Reachable (cfg : Config) (s : Sys) : Prop :=
  ∃ es : List Event, run cfg es = s

end UD

/-! ### Concrete scenarios used to exercise the theorems -/

/-- The source's default configuration: rate limit 10 per minute, minimum
withdrawal 50. -/
def cfgDefault : Config := ⟨10, 50⟩

/-- Default rate limit with a low withdrawal minimum of 5. -/
def cfgW : Config := ⟨10, 5⟩

/-- Rate limit of 1 per minute and minimum withdrawal 0 (both are
environment-derived configuration in the source). -/
def cfgRL : Config := ⟨1, 0⟩

/-- Register one affiliate and create one Saudi order (cost 100, selling
150). -/
def esA : List Event :=
  [.register 7 "Aff" "+20100" "Store",
   .startOrder 7 0,
   .orderCountry 1 "Saudi Arabia",
   .orderCostPrice 1 100,
   .orderSellingPrice 1 150 0]

def oA : Order := ⟨1, 1, "Saudi Arabia", "SAR", 100, 150, 50, .pending, 0⟩

def aA : Affiliate := ⟨1, 7, "Aff", "+20100", "Store", 0, 0, 0, 1⟩

def sA : Sys := run cfgDefault esA

theorem sA_eval : sA = ⟨[aA], [oA], [], [], [], 2, 2, 1, 2, 1⟩ := by
  norm_num [sA, cfgDefault, esA, oA, aA, run, step, Sys.init, register_store_name,
    start_order, order_country, order_cost_price, order_selling_price,
    findAffByTg, findAff, findOrder, findOrderConv, updateOrderConv, removeOrderConv,
    rate_limit_check, ordersInWindow, get_currency_for_country,
    List.find?, List.filter, List.foldl]

/-- ... then mark the order delivered. -/
def esB : List Event := esA ++ [.orderStatus .delivered 1]

def oB : Order := ⟨1, 1, "Saudi Arabia", "SAR", 100, 150, 50, .delivered, 0⟩

/-- After delivery: balance and earnings `50 * 0.2665 = 13.325 = 533/40`,
sales `150 * 0.2665 = 39.975 = 1599/40`. -/
def aB : Affiliate := ⟨1, 7, "Aff", "+20100", "Store", 533/40, 533/40, 1599/40, 1⟩

def sB : Sys := run cfgDefault esB

theorem sB_eval : sB = ⟨[aB], [oB], [], [], [], 2, 2, 1, 2, 1⟩ := by
  have h1 : sB = (step cfgDefault (.orderStatus .delivered 1) sA).1 := rfl
  rw [h1, sA_eval]
  norm_num [step, handle_order_status_callback, findOrder, findAff, convert_to_usd,
    SAR_TO_USD, AED_TO_USD, oA, aA, oB, aB, List.find?, List.filter]

/-- ... then (under `cfgW`) finish one withdrawal request of 10 and leave a
second withdrawal conversation open. -/
def esW6 : List Event :=
  esB ++ [.startWithdrawal 7, .withdrawalAmount 1 10, .startWithdrawal 7,
          .withdrawalAmount 2 10, .withdrawalPhone 2 "+20111" 7]

def wB : Withdrawal := ⟨1, 1, 10, "+20111", "USD", .pending, 7, none, none⟩

def cB : WithdrawalConv := ⟨1, 1, 533/40, some 10⟩

def sW6 : Sys := run cfgW esW6

theorem sW6_eval : sW6 = ⟨[aB], [oB], [wB], [], [cB], 2, 2, 2, 2, 3⟩ := by
  have h0 : run cfgW esB = ⟨[aB], [oB], [], [], [], 2, 2, 1, 2, 1⟩ := by
    norm_num [cfgW, esB, esA, run, step, Sys.init, register_store_name,
      start_order, order_country, order_cost_price, order_selling_price,
      handle_order_status_callback, findAffByTg, findAff, findOrder, findOrderConv,
      updateOrderConv, removeOrderConv, rate_limit_check, ordersInWindow,
      get_currency_for_country, convert_to_usd, SAR_TO_USD, AED_TO_USD,
      oB, aB, List.find?, List.filter, List.foldl]
  have h1 : sW6 =
      (step cfgW (.withdrawalPhone 2 "+20111" 7)
        (step cfgW (.withdrawalAmount 2 10)
          (step cfgW (.startWithdrawal 7)
            (step cfgW (.withdrawalAmount 1 10)
              (step cfgW (.startWithdrawal 7) (run cfgW esB)).1).1).1).1).1 := rfl
  rw [h1, h0]
  norm_num [step, start_withdrawal, withdrawal_amount, withdrawal_phone,
    findAffByTg, findAff, findWConv, pendingWithdrawalsFor, updateWConv,
    removeWConv, cfgW, aB, oB, wB, cB, List.find?, List.filter]

/-- An affiliate with balance 13.50 holding a withdrawal conversation whose
amount is 13.50 (scenario B of the spec). -/
def aW : Affiliate := ⟨1, 7, "Aff", "+20100", "Store", 27/2, 27/2, 0, 1⟩

def cW : WithdrawalConv := ⟨1, 1, 27/2, some (27/2)⟩

def sWd : Sys := ⟨[aW], [], [], [], [cW], 2, 1, 1, 1, 2⟩

/-- The same affiliate with a persisted pending withdrawal of 13.50. -/
def wW : Withdrawal := ⟨1, 1, 27/2, "+20111", "USD", .pending, 5, none, none⟩

def sWd2 : Sys := ⟨[aW], [], [wW], [], [], 2, 1, 2, 1, 2⟩

/-- An open order conversation that has collected country and a cost price of
100 but not yet a selling price. -/
def esP : List Event :=
  [.register 7 "Aff" "+20100" "Store",
   .startOrder 7 0,
   .orderCountry 1 "Saudi Arabia",
   .orderCostPrice 1 100]

def aP : Affiliate := ⟨1, 7, "Aff", "+20100", "Store", 0, 0, 0, 0⟩

def cP : OrderConv := ⟨1, 1, some "Saudi Arabia", some "SAR", some 100⟩

def sP : Sys := run cfgDefault esP

theorem sP_eval : sP = ⟨[aP], [], [], [cP], [], 2, 1, 1, 2, 1⟩ := by
  norm_num [sP, cfgDefault, esP, aP, cP, run, step, Sys.init, register_store_name,
    start_order, order_country, order_cost_price,
    findAffByTg, findOrderConv, updateOrderConv,
    rate_limit_check, ordersInWindow, get_currency_for_country,
    List.find?, List.filter, List.foldl]

/-- Refined-model trace, user 7, rate limit 1, minimum withdrawal 0.
Chunk 1: register; start an order conversation in chat 2 (the rate-limit
check passes at count 0) and park it at the customer-name step; start a
second one in chat 3 (count still 0) and give chat 3's customer name. -/
def esC6f1 : List UD.Event :=
  [.register 7 1 "Aff" "+20100" "Store",
   .startOrder 7 2 0,
   .startOrder 7 3 0,
   .orderCustomerName 7 3 "Bob"]

/-- Chunk 2: chat 3 collects country, phone, address, city. -/
def esC6f2 : List UD.Event :=
  [.orderCountry 7 3 "Saudi Arabia",
   .orderCustomerPhone 7 3 "+966500000000",
   .orderAddress 7 3 "Addr1",
   .orderCity 7 3 "Riyadh"]

/-- Chunk 3: chat 3 finishes — its completion persists order 1 at time 0
(reaching the ceiling of 1) and `user_data.clear()` wipes the shared dict,
chat 2's `affiliate_id` included. -/
def esC6f3 : List UD.Event :=
  [.orderProduct 7 3 "Thing",
   .orderProductCode 7 3 "X1",
   .orderCostPrice 7 3 100,
   .orderSellingPrice 7 3 150 0]

/-- Chunk 4: `start_withdrawal` in chat 4 re-writes `affiliate_id` into the
shared dict with NO rate-limit check; chat 2 re-collects name, country,
phone. -/
def esC6f4 : List UD.Event :=
  [.startWithdrawal 7 4,
   .orderCustomerName 7 2 "Bob",
   .orderCountry 7 2 "Saudi Arabia",
   .orderCustomerPhone 7 2 "+966500000000"]

/-- Chunk 5: chat 2 re-collects the remaining fields up to the cost price,
so its next message is the selling price. -/
def esC6f5 : List UD.Event :=
  [.orderAddress 7 2 "Addr1",
   .orderCity 7 2 "Riyadh",
   .orderProduct 7 2 "Thing",
   .orderProductCode 7 2 "X1",
   .orderCostPrice 7 2 100]

def esC6f : List UD.Event := esC6f1 ++ esC6f2 ++ esC6f3 ++ esC6f4 ++ esC6f5

/-- The shared dict just before chat 2's selling-price message:
`affiliate_id` (and the two withdrawal keys) from `start_withdrawal`, the
order fields from chat 2's re-collection. -/
def udF : UD.UserData :=
  ⟨some 1, some "Bob", some "+966500000000", some "Addr1", some "Riyadh",
   some "Saudi Arabia", some "SAR", some "Thing", some "X1", some 100,
   some 0, some "USD"⟩

def stF : List (Nat × Nat × UD.Stage) :=
  [(7, 2, .orderSellingPrice), (7, 4, .withdrawalAmount),
   (7, 3, .idle), (7, 1, .idle)]

/-- The order chat 2 persists while affiliate 1 already owns 1 ≥ 1
in-window orders. -/
def oC6 : Order := ⟨2, 1, "Saudi Arabia", "SAR", 100, 150, 50, .pending, 0⟩

def sC6f : UD.Sys := UD.run cfgRL esC6f

set_option maxHeartbeats 1000000 in
theorem sC6f_eval : sC6f = ⟨[aA], [oA], [], [(7, udF)], stF, 2, 2⟩ := by
  have h1 : UD.run cfgRL esC6f1
      = ⟨[aP], [], [],
         [(7, ⟨some 1, some "Bob", none, none, none, none, none, none, none,
               none, none, none⟩)],
         [(7, 3, .orderCountry), (7, 2, .orderCustomerName), (7, 1, .idle)],
         2, 1⟩ := by
    norm_num [UD.run, UD.step, UD.Sys.init, esC6f1, cfgRL,
      UD.register_store_name, UD.start_order, UD.order_customer_name,
      UD.getUD, UD.setUD, UD.getStage, UD.setStage, UD.findAffByTg,
      UD.rate_limit_check, UD.ordersInWindow, aP, List.foldl,
      List.find?_cons_of_pos, List.find?_cons_of_neg,
      List.filter_cons_of_pos, List.filter_cons_of_neg,
      show ("Bob" : String).length = 3 from rfl]
  have h2 : List.foldl (fun s e => (UD.step cfgRL e s).1)
      (⟨[aP], [], [],
        [(7, ⟨some 1, some "Bob", none, none, none, none, none, none, none,
              none, none, none⟩)],
        [(7, 3, .orderCountry), (7, 2, .orderCustomerName), (7, 1, .idle)],
        2, 1⟩ : UD.Sys) esC6f2
      = ⟨[aP], [], [],
         [(7, ⟨some 1, some "Bob", some "+966500000000", some "Addr1",
               some "Riyadh", some "Saudi Arabia", some "SAR", none, none,
               none, none, none⟩)],
         [(7, 3, .orderProduct), (7, 2, .orderCustomerName), (7, 1, .idle)],
         2, 1⟩ := by
    norm_num [UD.step, esC6f2, cfgRL,
      UD.order_country, UD.order_customer_phone, UD.order_address,
      UD.order_city, UD.getUD, UD.setUD, UD.getStage, UD.setStage,
      get_currency_for_country, aP, List.foldl,
      List.find?_cons_of_pos, List.find?_cons_of_neg,
      List.filter_cons_of_pos, List.filter_cons_of_neg,
      show ("Addr1" : String).length = 5 from rfl,
      show ("Riyadh" : String).length = 6 from rfl,
      show UD.validate_customer_phone "+966500000000" "Saudi Arabia" = true
        from rfl]
  have h3 : List.foldl (fun s e => (UD.step cfgRL e s).1)
      (⟨[aP], [], [],
        [(7, ⟨some 1, some "Bob", some "+966500000000", some "Addr1",
              some "Riyadh", some "Saudi Arabia", some "SAR", none, none,
              none, none, none⟩)],
        [(7, 3, .orderProduct), (7, 2, .orderCustomerName), (7, 1, .idle)],
        2, 1⟩ : UD.Sys) esC6f3
      = ⟨[aA], [oA], [],
         [(7, ⟨none, none, none, none, none, none, none, none, none, none,
               none, none⟩)],
         [(7, 3, .idle), (7, 2, .orderCustomerName), (7, 1, .idle)],
         2, 2⟩ := by
    norm_num [UD.step, esC6f3, cfgRL,
      UD.order_product, UD.order_product_code, UD.order_cost_price,
      UD.order_selling_price, UD.getUD, UD.setUD, UD.getStage, UD.setStage,
      UD.findAff, aP, aA, oA, List.foldl,
      List.find?_cons_of_pos, List.find?_cons_of_neg,
      List.filter_cons_of_pos, List.filter_cons_of_neg,
      show ("Thing" : String).length = 5 from rfl,
      show ("X1" : String).isEmpty = false from rfl]
  have h4 : List.foldl (fun s e => (UD.step cfgRL e s).1)
      (⟨[aA], [oA], [],
        [(7, ⟨none, none, none, none, none, none, none, none, none, none,
              none, none⟩)],
        [(7, 3, .idle), (7, 2, .orderCustomerName), (7, 1, .idle)],
        2, 2⟩ : UD.Sys) esC6f4
      = ⟨[aA], [oA], [],
         [(7, ⟨some 1, some "Bob", some "+966500000000", none, none,
               some "Saudi Arabia", some "SAR", none, none, none, some 0,
               some "USD"⟩)],
         [(7, 2, .orderAddress), (7, 4, .withdrawalAmount),
          (7, 3, .idle), (7, 1, .idle)],
         2, 2⟩ := by
    norm_num [UD.step, esC6f4, cfgRL,
      UD.start_withdrawal, UD.order_customer_name, UD.order_country,
      UD.order_customer_phone, UD.getUD, UD.setUD, UD.getStage, UD.setStage,
      UD.findAffByTg, UD.pendingWithdrawalsFor,
      get_currency_for_country, aA, oA, List.foldl,
      List.find?_cons_of_pos, List.find?_cons_of_neg,
      List.filter_cons_of_pos, List.filter_cons_of_neg,
      show ("Bob" : String).length = 3 from rfl,
      show UD.validate_customer_phone "+966500000000" "Saudi Arabia" = true
        from rfl]
  have h5 : List.foldl (fun s e => (UD.step cfgRL e s).1)
      (⟨[aA], [oA], [],
        [(7, ⟨some 1, some "Bob", some "+966500000000", none, none,
              some "Saudi Arabia", some "SAR", none, none, none, some 0,
              some "USD"⟩)],
        [(7, 2, .orderAddress), (7, 4, .withdrawalAmount),
         (7, 3, .idle), (7, 1, .idle)],
        2, 2⟩ : UD.Sys) esC6f5
      = ⟨[aA], [oA], [], [(7, udF)], stF, 2, 2⟩ := by
    norm_num [UD.step, esC6f5, cfgRL,
      UD.order_address, UD.order_city, UD.order_product,
      UD.order_product_code, UD.order_cost_price,
      UD.getUD, UD.setUD, UD.getStage, UD.setStage, aA, oA, udF, stF,
      List.foldl,
      List.find?_cons_of_pos, List.find?_cons_of_neg,
      List.filter_cons_of_pos, List.filter_cons_of_neg,
      show ("Addr1" : String).length = 5 from rfl,
      show ("Riyadh" : String).length = 6 from rfl,
      show ("Thing" : String).length = 5 from rfl,
      show ("X1" : String).isEmpty = false from rfl]
  have hc : sC6f
      = List.foldl (fun s e => (UD.step cfgRL e s).1)
          (List.foldl (fun s e => (UD.step cfgRL e s).1)
            (List.foldl (fun s e => (UD.step cfgRL e s).1)
              (List.foldl (fun s e => (UD.step cfgRL e s).1)
                (UD.run cfgRL esC6f1) esC6f2) esC6f3) esC6f4) esC6f5 := by
    simp [sC6f, esC6f, UD.run, List.foldl_append]
  rw [hc, h1, h2, h3, h4, h5]

/-! ### The claims -/

/-- C1: for every order (of a reachable store) whose status is `pending` and
whose owning affiliate exists, marking it delivered succeeds and, in the same
committed update, sets the status to `delivered`, increases the affiliate's
`balance` and `total_earnings` by the commission converted to the settlement
currency (local amount times the fixed per-currency rate, identity for USD)
and `total_sales` by the selling price converted the same way, and changes
nothing else: withdrawals, other orders and other affiliates are untouched. -/
theorem C1_mark_delivered_ledger (cfg : Config) (s : Sys) (oid : Nat)
    (o : Order) (a : Affiliate) (hreach : Reachable cfg s)
    (hf : findOrder s oid = some o) (hst : o.status = OrderStatus.pending)
    (hfa : findAff s o.affiliate_id = some a) :
    ∃ uc us : ℚ,
      convert_to_usd o.commission o.currency = .ok uc ∧
      convert_to_usd o.selling_price o.currency = .ok us ∧
      (o.currency = "SAR" →
        uc = o.commission * SAR_TO_USD ∧ us = o.selling_price * SAR_TO_USD) ∧
      (o.currency = "AED" →
        uc = o.commission * AED_TO_USD ∧ us = o.selling_price * AED_TO_USD) ∧
      (o.currency = "USD" → uc = o.commission ∧ us = o.selling_price) ∧
      (handle_order_status_callback s .delivered oid).2 = Res.ok ∧
      findOrder (handle_order_status_callback s .delivered oid).1 oid
        = some { o with status := OrderStatus.delivered } ∧
      findAff (handle_order_status_callback s .delivered oid).1 o.affiliate_id
        = some { a with balance := a.balance + uc,
                        total_earnings := a.total_earnings + uc,
                        total_sales := a.total_sales + us } ∧
      (handle_order_status_callback s .delivered oid).1.withdrawals
        = s.withdrawals ∧
      (∀ oid2, oid2 ≠ oid →
        findOrder (handle_order_status_callback s .delivered oid).1 oid2
          = findOrder s oid2) ∧
      (∀ aid2, aid2 ≠ o.affiliate_id →
        findAff (handle_order_status_callback s .delivered oid).1 aid2
          = findAff s aid2) := by
  have hg := reachable_good hreach
  have hmem : o ∈ s.orders :=
    List.mem_of_find?_eq_some
      (show s.orders.find? (fun x => x.id == oid) = some o from hf)
  have hook := hg.orders_ok o hmem
  rcases hook.2.2.2 with ⟨hco, hcu⟩ | ⟨hco, hcu⟩
  · have hc1 : convert_to_usd o.commission o.currency
        = .ok (o.commission * SAR_TO_USD) := by
      rw [hcu]; exact convert_to_usd_sar _
    have hc2 : convert_to_usd o.selling_price o.currency
        = .ok (o.selling_price * SAR_TO_USD) := by
      rw [hcu]; exact convert_to_usd_sar _
    obtain ⟨d1, d2, d3, d4, d5, d6⟩ := delivered_spec s oid o a _ _ hf hst hfa hc1 hc2
    exact ⟨_, _, hc1, hc2, fun _ => ⟨rfl, rfl⟩,
      fun h => absurd (h.symm.trans hcu) (by decide),
      fun h => absurd (h.symm.trans hcu) (by decide),
      d1, d2, d3, d4, d5, d6⟩
  · have hc1 : convert_to_usd o.commission o.currency
        = .ok (o.commission * AED_TO_USD) := by
      rw [hcu]; exact convert_to_usd_aed _
    have hc2 : convert_to_usd o.selling_price o.currency
        = .ok (o.selling_price * AED_TO_USD) := by
      rw [hcu]; exact convert_to_usd_aed _
    obtain ⟨d1, d2, d3, d4, d5, d6⟩ := delivered_spec s oid o a _ _ hf hst hfa hc1 hc2
    exact ⟨_, _, hc1, hc2,
      fun h => absurd (h.symm.trans hcu) (by decide),
      fun _ => ⟨rfl, rfl⟩,
      fun h => absurd (h.symm.trans hcu) (by decide),
      d1, d2, d3, d4, d5, d6⟩

theorem C1_mark_delivered_ledger_witness :
    ∃ uc us : ℚ,
      convert_to_usd oA.commission oA.currency = .ok uc ∧
      convert_to_usd oA.selling_price oA.currency = .ok us ∧
      (oA.currency = "SAR" →
        uc = oA.commission * SAR_TO_USD ∧ us = oA.selling_price * SAR_TO_USD) ∧
      (oA.currency = "AED" →
        uc = oA.commission * AED_TO_USD ∧ us = oA.selling_price * AED_TO_USD) ∧
      (oA.currency = "USD" → uc = oA.commission ∧ us = oA.selling_price) ∧
      (handle_order_status_callback sA .delivered 1).2 = Res.ok ∧
      findOrder (handle_order_status_callback sA .delivered 1).1 1
        = some { oA with status := OrderStatus.delivered } ∧
      findAff (handle_order_status_callback sA .delivered 1).1 oA.affiliate_id
        = some { aA with balance := aA.balance + uc,
                         total_earnings := aA.total_earnings + uc,
                         total_sales := aA.total_sales + us } ∧
      (handle_order_status_callback sA .delivered 1).1.withdrawals
        = sA.withdrawals ∧
      (∀ oid2, oid2 ≠ 1 →
        findOrder (handle_order_status_callback sA .delivered 1).1 oid2
          = findOrder sA oid2) ∧
      (∀ aid2, aid2 ≠ oA.affiliate_id →
        findAff (handle_order_status_callback sA .delivered 1).1 aid2
          = findAff sA aid2) :=
  C1_mark_delivered_ledger cfgDefault sA 1 oA aA ⟨esA, rfl⟩
    (by rw [sA_eval]; rfl) rfl (by rw [sA_eval]; rfl)

/-- C2: the ledger effect is applied at most once, exactly on the transition
from `pending` to `delivered`: any terminal-transition attempt on a
non-`pending` order fails as already-processed, reporting the existing status
and leaving the whole store unchanged; the transition to `issue` applies no
ledger effect; and immediately after a successful `delivered` transition a
second `delivered` attempt fails as already-processed with the store
unchanged. -/
theorem C2_ledger_effect_once (cfg : Config) (s : Sys) (oid : Nat) (o : Order)
    (hreach : Reachable cfg s) (hf : findOrder s oid = some o) :
    (o.status ≠ OrderStatus.pending →
      ∀ act, handle_order_status_callback s act oid
        = (s, .alreadyProcessed o.status.str)) ∧
    (o.status = OrderStatus.pending →
      ∀ a, findAff s o.affiliate_id = some a →
        (handle_order_status_callback s .issue oid).1.affiliates
          = s.affiliates ∧
        (handle_order_status_callback s .issue oid).1.withdrawals
          = s.withdrawals ∧
        (handle_order_status_callback s .issue oid).2 = Res.ok ∧
        findOrder (handle_order_status_callback s .issue oid).1 oid
          = some { o with status := OrderStatus.issue } ∧
        handle_order_status_callback
            (handle_order_status_callback s .delivered oid).1 .delivered oid
          = ((handle_order_status_callback s .delivered oid).1,
             .alreadyProcessed "delivered")) := by
  have hg := reachable_good hreach
  constructor
  · intro hst act
    exact order_status_nonpending s act oid o hf hst
  · intro hst a hfa
    have hmem : o ∈ s.orders :=
      List.mem_of_find?_eq_some
        (show s.orders.find? (fun x => x.id == oid) = some o from hf)
    have hook := hg.orders_ok o hmem
    obtain ⟨uc, us, hc1, hc2⟩ :
        ∃ uc us, convert_to_usd o.commission o.currency = .ok uc ∧
          convert_to_usd o.selling_price o.currency = .ok us := by
      rcases hook.2.2.2 with ⟨_, hcu⟩ | ⟨_, hcu⟩
      · exact ⟨_, _, by rw [hcu]; exact convert_to_usd_sar _,
          by rw [hcu]; exact convert_to_usd_sar _⟩
      · exact ⟨_, _, by rw [hcu]; exact convert_to_usd_aed _,
          by rw [hcu]; exact convert_to_usd_aed _⟩
    obtain ⟨i1, i2, i3, i4, i5⟩ := issue_spec s oid o a uc us hf hst hfa hc1 hc2
    obtain ⟨d1, d2, d3, d4, d5, d6⟩ :=
      delivered_spec s oid o a uc us hf hst hfa hc1 hc2
    refine ⟨i2, i3, i1, i4, ?_⟩
    have hnp : ({ o with status := OrderStatus.delivered } : Order).status
        ≠ OrderStatus.pending := by simp
    have h2 := order_status_nonpending
      (handle_order_status_callback s .delivered oid).1 .delivered oid _ d2 hnp
    simpa using h2

theorem C2_ledger_effect_once_witness :
    (OrderStatus.delivered ≠ OrderStatus.pending →
      ∀ act, handle_order_status_callback sB act 1
        = (sB, .alreadyProcessed OrderStatus.delivered.str)) ∧
    (OrderStatus.delivered = OrderStatus.pending →
      ∀ a, findAff sB oB.affiliate_id = some a →
        (handle_order_status_callback sB .issue 1).1.affiliates
          = sB.affiliates ∧
        (handle_order_status_callback sB .issue 1).1.withdrawals
          = sB.withdrawals ∧
        (handle_order_status_callback sB .issue 1).2 = Res.ok ∧
        findOrder (handle_order_status_callback sB .issue 1).1 1
          = some { oB with status := OrderStatus.issue } ∧
        handle_order_status_callback
            (handle_order_status_callback sB .delivered 1).1 .delivered 1
          = ((handle_order_status_callback sB .delivered 1).1,
             .alreadyProcessed "delivered")) :=
  C2_ledger_effect_once cfgDefault sB 1 oB ⟨esB, rfl⟩ (by rw [sB_eval]; rfl)

/-- C3: in every reachable store, every affiliate's balance is
non-negative. -/
theorem C3_balance_nonneg (cfg : Config) (s : Sys) (hreach : Reachable cfg s) :
    ∀ a ∈ s.affiliates, 0 ≤ a.balance :=
  (reachable_good hreach).bal_nonneg

theorem C3_balance_nonneg_witness : 0 ≤ aB.balance :=
  C3_balance_nonneg cfgDefault sB ⟨esB, rfl⟩ aB
    (by rw [sB_eval]; exact List.mem_cons_self _ _)

/-- C4: deferred-debit policy.  A successful `withdrawal_phone` (request
persisted) creates a pending withdrawal and leaves every affiliate —
in particular the requester's balance — unchanged; approving a pending
withdrawal whose amount is covered by the fresh balance decrements the
balance by exactly the withdrawal's amount; rejecting changes no balance at
all. -/
theorem C4_deferred_debit (s : Sys) :
    (∀ cid phone now c a amt,
      findWConv s cid = some c → findAff s c.affiliate_id = some a →
      c.amount = some amt → amt ≤ a.balance →
      pendingWithdrawalsFor s a.id = [] →
      (withdrawal_phone s cid phone now).2 = Res.ok ∧
      (withdrawal_phone s cid phone now).1.affiliates = s.affiliates ∧
      (withdrawal_phone s cid phone now).1.orders = s.orders ∧
      (withdrawal_phone s cid phone now).1.withdrawals
        = s.withdrawals ++
          [⟨s.nextWId, a.id, amt, phone, "USD", .pending, now, none, none⟩]) ∧
    (∀ wid adminId now w a,
      findWithdrawal s wid = some w → w.status = WStatus.pending →
      findAff s w.affiliate_id = some a → w.amount ≤ a.balance →
      (handle_withdrawal_callback s .approve wid adminId now).2 = Res.ok ∧
      findAff (handle_withdrawal_callback s .approve wid adminId now).1
          w.affiliate_id
        = some { a with balance := a.balance - w.amount } ∧
      findWithdrawal
          (handle_withdrawal_callback s .approve wid adminId now).1 wid
        = some { w with status := WStatus.approved, processed_at := some now,
                        processed_by_admin_id := some adminId } ∧
      (handle_withdrawal_callback s .approve wid adminId now).1.orders
        = s.orders) ∧
    (∀ wid adminId now w a,
      findWithdrawal s wid = some w → w.status = WStatus.pending →
      findAff s w.affiliate_id = some a →
      (handle_withdrawal_callback s .reject wid adminId now).2 = Res.ok ∧
      (handle_withdrawal_callback s .reject wid adminId now).1.affiliates
        = s.affiliates ∧
      findWithdrawal
          (handle_withdrawal_callback s .reject wid adminId now).1 wid
        = some { w with status := WStatus.rejected, processed_at := some now,
                        processed_by_admin_id := some adminId }) := by
  refine ⟨?_, ?_, ?_⟩
  · intro cid phone now c a amt hc hfa hamt hbal hpend
    exact withdrawal_phone_spec s cid phone now c a amt hc hfa hamt hbal hpend
  · intro wid adm now w a hf hst hfa hbal
    obtain ⟨p1, p2, p3, p4, _, _⟩ := approve_spec s wid adm now w a hf hst hfa hbal
    exact ⟨p1, p2, p3, p4⟩
  · intro wid adm now w a hf hst hfa
    obtain ⟨r1, r2, r3, r4⟩ := reject_spec s wid adm now w a hf hst hfa
    exact ⟨r1, r2, r4⟩

theorem C4_deferred_debit_witness :
    ((withdrawal_phone sWd 1 "+20111" 5).2 = Res.ok ∧
     (withdrawal_phone sWd 1 "+20111" 5).1.affiliates = sWd.affiliates ∧
     (withdrawal_phone sWd 1 "+20111" 5).1.orders = sWd.orders ∧
     (withdrawal_phone sWd 1 "+20111" 5).1.withdrawals
       = sWd.withdrawals ++
         [⟨sWd.nextWId, aW.id, 27/2, "+20111", "USD", .pending, 5, none, none⟩]) ∧
    ((handle_withdrawal_callback sWd2 .approve 1 9 6).2 = Res.ok ∧
     findAff (handle_withdrawal_callback sWd2 .approve 1 9 6).1 wW.affiliate_id
       = some { aW with balance := aW.balance - wW.amount } ∧
     findWithdrawal (handle_withdrawal_callback sWd2 .approve 1 9 6).1 1
       = some { wW with status := WStatus.approved, processed_at := some 6,
                        processed_by_admin_id := some 9 } ∧
     (handle_withdrawal_callback sWd2 .approve 1 9 6).1.orders
       = sWd2.orders) ∧
    ((handle_withdrawal_callback sWd2 .reject 1 9 6).2 = Res.ok ∧
     (handle_withdrawal_callback sWd2 .reject 1 9 6).1.affiliates
       = sWd2.affiliates ∧
     findWithdrawal (handle_withdrawal_callback sWd2 .reject 1 9 6).1 1
       = some { wW with status := WStatus.rejected, processed_at := some 6,
                        processed_by_admin_id := some 9 }) ∧
    aW.balance - wW.amount = 0 :=
  ⟨(C4_deferred_debit sWd).1 1 "+20111" 5 cW aW (27/2) rfl rfl rfl
      (by norm_num [cW, aW]) rfl,
   (C4_deferred_debit sWd2).2.1 1 9 6 wW aW rfl rfl rfl
      (by norm_num [wW, aW]),
   (C4_deferred_debit sWd2).2.2 1 9 6 wW aW rfl rfl rfl,
   by norm_num [wW, aW]⟩

/-- C5: in every reachable store, at most one pending withdrawal exists per
affiliate; a withdrawal request made while a pending withdrawal exists fails
with the duplicate-pending error at the start of the flow; and the persisting
step re-checks, so even a conversation that raced past the first check cannot
insert a second pending withdrawal. -/
theorem C5_single_pending_withdrawal (cfg : Config) (s : Sys)
    (hreach : Reachable cfg s) :
    (∀ aid, (pendingWithdrawalsFor s aid).length ≤ 1) ∧
    (∀ tg a, findAffByTg s tg = some a →
      pendingWithdrawalsFor s a.id ≠ [] →
      start_withdrawal cfg s tg = (s, Res.duplicatePending)) ∧
    (∀ cid phone now c, findWConv s cid = some c →
      pendingWithdrawalsFor s c.affiliate_id ≠ [] →
      (withdrawal_phone s cid phone now).1.withdrawals = s.withdrawals ∧
      (withdrawal_phone s cid phone now).2 ≠ Res.ok) := by
  refine ⟨(reachable_good hreach).pending_unique, ?_, ?_⟩
  · intro tg a hf hpend
    unfold start_withdrawal
    rw [hf]
    dsimp only
    rw [if_neg (by simpa [List.isEmpty_iff] using hpend)]
  · intro cid phone now c hc hpend
    unfold withdrawal_phone
    rw [hc]
    dsimp only
    cases hfa : findAff s c.affiliate_id with
    | none => exact ⟨rfl, by simp⟩
    | some a =>
        dsimp only
        cases hamt : c.amount with
        | none => exact ⟨rfl, by simp⟩
        | some amt =>
            dsimp only
            have haid : a.id = c.affiliate_id := by
              have h := List.find?_some
                (show s.affiliates.find? (fun x => x.id == c.affiliate_id)
                  = some a from hfa)
              simpa using h
            have hne : ¬((pendingWithdrawalsFor s a.id).isEmpty = true) := by
              rw [haid]
              simpa [List.isEmpty_iff] using hpend
            by_cases h1 : a.balance < amt
            · rw [if_pos h1]
              exact ⟨rfl, by simp⟩
            · rw [if_neg h1, if_neg hne]
              exact ⟨rfl, by simp⟩

theorem C5_single_pending_withdrawal_witness :
    ((pendingWithdrawalsFor sW6 1).length ≤ 1) ∧
    (start_withdrawal cfgW sW6 7 = (sW6, Res.duplicatePending)) ∧
    ((withdrawal_phone sW6 1 "+20111" 8).1.withdrawals = sW6.withdrawals ∧
     (withdrawal_phone sW6 1 "+20111" 8).2 ≠ Res.ok) :=
  ⟨(C5_single_pending_withdrawal cfgW sW6 ⟨esW6, rfl⟩).1 1,
   (C5_single_pending_withdrawal cfgW sW6 ⟨esW6, rfl⟩).2.1 7 aB
     (by rw [sW6_eval]; rfl)
     (by rw [sW6_eval]
         norm_num [pendingWithdrawalsFor, aB, wB,
           List.filter_cons_of_pos, List.filter_cons_of_neg]),
   (C5_single_pending_withdrawal cfgW sW6 ⟨esW6, rfl⟩).2.2 1 "+20111" 8 cB
     (by rw [sW6_eval]; rfl)
     (by rw [sW6_eval]
         norm_num [pendingWithdrawalsFor, cB, wB,
           List.filter_cons_of_pos, List.filter_cons_of_neg])⟩

/-- C6 counterexample: the rate-limit check is NOT re-invoked by the
operation that persists the order.  On the refined shared-`user_data` model,
under a ceiling of 1, a store is reachable in which affiliate 1 already owns
1 order inside the trailing window at time 0 — the rate limiter itself
reports `false` — and yet the order conversation parked in chat 2 persists a
second order for that affiliate with success instead of failing
rate-limited.  The trace respects the shared dict: the blocking order's
completion wiped the dict for every conversation, and `affiliate_id` was put
back by `start_withdrawal` (src/main.py:507), which performs no rate-limit
check, before chat 2 re-collected the remaining fields. -/
theorem C6_rate_limit_not_rechecked_counterexample :
    UD.Reachable cfgRL sC6f ∧
    cfgRL.rate_limit_per_minute ≤ UD.ordersInWindow sC6f 1 0 ∧
    UD.rate_limit_check cfgRL sC6f 1 0 = false ∧
    (UD.order_selling_price sC6f 7 2 150 0).2 = Res.ok ∧
    (UD.order_selling_price sC6f 7 2 150 0).1.orders = sC6f.orders ++ [oC6] := by
  refine ⟨⟨esC6f, rfl⟩, ?_, ?_, ?_, ?_⟩
  · rw [sC6f_eval]
    norm_num [UD.ordersInWindow, cfgRL, oA,
      List.filter_cons_of_pos, List.filter_cons_of_neg]
  · rw [sC6f_eval]
    norm_num [UD.rate_limit_check, UD.ordersInWindow, cfgRL, oA,
      List.filter_cons_of_pos, List.filter_cons_of_neg]
  · rw [sC6f_eval]
    norm_num [UD.order_selling_price, UD.getStage, UD.getUD, UD.setStage,
      UD.setUD, UD.findAff, udF, stF, aA, oA, oC6,
      List.find?_cons_of_pos, List.find?_cons_of_neg,
      List.filter_cons_of_pos, List.filter_cons_of_neg]
  · rw [sC6f_eval]
    norm_num [UD.order_selling_price, UD.getStage, UD.getUD, UD.setStage,
      UD.setUD, UD.findAff, udF, stF, aA, oA, oC6,
      List.find?_cons_of_pos, List.find?_cons_of_neg,
      List.filter_cons_of_pos, List.filter_cons_of_neg]

/-- C6 amended: the rate-limit check is performed only when an order
conversation starts (`start_order`), not by the step that persists the
order, so the bound is guaranteed only at conversation-start time: whenever
`start_order` succeeds (on the refined shared-`user_data` model), the
affiliate's in-window order count at that moment is strictly below the
configured ceiling. -/
theorem C6_rate_limit_checked_at_start (cfg : Config) (s : UD.Sys)
    (tg chat : Nat) (now : ℚ)
    (h : (UD.start_order cfg s tg chat now).2 = Res.ok) :
    ∃ a, UD.findAffByTg s tg = some a ∧
      UD.ordersInWindow s a.id now < cfg.rate_limit_per_minute := by
  unfold UD.start_order at h
  by_cases hst : UD.getStage s tg chat = UD.Stage.idle
  · rw [if_pos hst] at h
    cases hf : UD.findAffByTg s tg with
    | none => rw [hf] at h; simp at h
    | some a =>
        rw [hf] at h
        dsimp only at h
        by_cases hrl : UD.rate_limit_check cfg s a.id now
        · exact ⟨a, rfl, by simpa [UD.rate_limit_check] using hrl⟩
        · rw [if_neg hrl] at h
          simp at h
  · rw [if_neg hst] at h
    simp at h

theorem C6_rate_limit_checked_at_start_witness :
    ∃ a, UD.findAffByTg sC6f 7 = some a ∧
      UD.ordersInWindow sC6f a.id 100 < cfgRL.rate_limit_per_minute :=
  C6_rate_limit_checked_at_start cfgRL sC6f 7 5 100
    (by rw [sC6f_eval]
        norm_num [UD.start_order, UD.getStage, UD.getUD, UD.setStage,
          UD.setUD, UD.findAffByTg, UD.rate_limit_check, UD.ordersInWindow,
          cfgRL, aA, oA, udF, stF, List.find?_cons_of_pos,
          List.find?_cons_of_neg, List.filter_cons_of_pos,
          List.filter_cons_of_neg])

/-- C7: the rate-limiter query returns `false` exactly when the number of
the affiliate's orders whose creation timestamp lies in the trailing
60-second window ending now has reached the configured ceiling, `true`
exactly when that count is still below it, and the count is precisely the
number of the affiliate's orders with `created_at ≥ now - 60`. -/
theorem C7_rate_limit_query (cfg : Config) (s : Sys) (aid : Nat) (now : ℚ) :
    (rate_limit_check cfg s aid now = false ↔
      cfg.rate_limit_per_minute ≤ ordersInWindow s aid now) ∧
    (rate_limit_check cfg s aid now = true ↔
      ordersInWindow s aid now < cfg.rate_limit_per_minute) ∧
    ordersInWindow s aid now
      = (s.orders.filter (fun o =>
          o.affiliate_id == aid && decide (now - 60 ≤ o.created_at))).length := by
  unfold rate_limit_check
  refine ⟨?_, ?_, rfl⟩
  · rw [decide_eq_false_iff_not, not_lt]
  · rw [decide_eq_true_eq]

/-- C8: every persisted order has a strictly positive cost price, a selling
price strictly above it, and a commission equal to selling price minus cost
price (hence strictly positive); and each pricing validation rejects its bad
input with the invalid-pricing reply, persisting nothing: a non-positive
cost price, a non-positive selling price, and a selling price not above the
stored cost price. -/
theorem C8_pricing_validation (cfg : Config) (s : Sys)
    (hreach : Reachable cfg s) :
    (∀ o ∈ s.orders, 0 < o.cost_price ∧ o.cost_price < o.selling_price ∧
      o.commission = o.selling_price - o.cost_price ∧ 0 < o.commission) ∧
    (∀ cid cost c, findOrderConv s cid = some c → cost ≤ 0 →
      order_cost_price s cid cost = (s, Res.invalidPricing)) ∧
    (∀ cid selling now c, findOrderConv s cid = some c → selling ≤ 0 →
      order_selling_price s cid selling now = (s, Res.invalidPricing)) ∧
    (∀ cid selling now c cp, findOrderConv s cid = some c →
      c.cost_price = some cp → 0 < selling → selling ≤ cp →
      order_selling_price s cid selling now = (s, Res.invalidPricing)) := by
  have hg := reachable_good hreach
  refine ⟨?_, ?_, ?_, ?_⟩
  · intro o ho
    have hok := hg.orders_ok o ho
    exact ⟨hok.1, hok.2.1, hok.2.2.1,
      by rw [hok.2.2.1]; exact sub_pos.mpr hok.2.1⟩
  · intro cid cost c hc hcost
    unfold order_cost_price
    rw [hc]
    dsimp only
    rw [if_pos hcost]
  · intro cid selling now c hc hsell
    unfold order_selling_price
    rw [hc]
    dsimp only
    rw [if_pos hsell]
  · intro cid selling now c cp hc hcp h0 hsc
    unfold order_selling_price
    rw [hc]
    dsimp only
    rw [if_neg (not_le.mpr h0), hcp]
    dsimp only
    rw [if_pos hsc]

theorem C8_pricing_validation_witness :
    (0 < oA.cost_price ∧ oA.cost_price < oA.selling_price ∧
      oA.commission = oA.selling_price - oA.cost_price ∧ 0 < oA.commission) ∧
    order_cost_price sP 1 (-5) = (sP, Res.invalidPricing) ∧
    order_selling_price sP 1 (-3) 9 = (sP, Res.invalidPricing) ∧
    order_selling_price sP 1 50 9 = (sP, Res.invalidPricing) :=
  ⟨(C8_pricing_validation cfgDefault sA ⟨esA, rfl⟩).1 oA
      (by rw [sA_eval]; exact List.mem_cons_self _ _),
   (C8_pricing_validation cfgDefault sP ⟨esP, rfl⟩).2.1 1 (-5) cP
      (by rw [sP_eval]; rfl) (by norm_num),
   (C8_pricing_validation cfgDefault sP ⟨esP, rfl⟩).2.2.1 1 (-3) 9 cP
      (by rw [sP_eval]; rfl) (by norm_num),
   (C8_pricing_validation cfgDefault sP ⟨esP, rfl⟩).2.2.2 1 50 9 cP 100
      (by rw [sP_eval]; rfl) rfl (by norm_num) (by norm_num)⟩

/-- C9: the currency normalizer multiplies by the fixed static rate for each
supported local currency (SAR, AED), returns the amount unchanged for the
settlement currency USD, and fails with an unknown-currency error on every
other currency code, never defaulting to any rate. -/
theorem C9_convert_to_usd_total (amt : ℚ) (c : String)
    (h1 : c ≠ "SAR") (h2 : c ≠ "AED") (h3 : c ≠ "USD") :
    convert_to_usd amt "SAR" = .ok (amt * SAR_TO_USD) ∧
    convert_to_usd amt "AED" = .ok (amt * AED_TO_USD) ∧
    convert_to_usd amt "USD" = .ok amt ∧
    convert_to_usd amt c = .error ("Unknown currency: " ++ c) := by
  refine ⟨convert_to_usd_sar amt, convert_to_usd_aed amt,
    convert_to_usd_usd amt, ?_⟩
  unfold convert_to_usd
  rw [if_neg h1, if_neg h2, if_neg h3]

theorem C9_convert_to_usd_total_witness :
    convert_to_usd 3 "SAR" = .ok (3 * SAR_TO_USD) ∧
    convert_to_usd 3 "AED" = .ok (3 * AED_TO_USD) ∧
    convert_to_usd 3 "USD" = .ok 3 ∧
    convert_to_usd 3 "EGP" = .error ("Unknown currency: " ++ "EGP") :=
  C9_convert_to_usd_total 3 "EGP" (by decide) (by decide) (by decide)

/-- C10: every persisted order carries exactly the country/currency pair
from the fixed table ("Saudi Arabia"/"SAR" or "UAE"/"AED"), so normalizing
its commission or selling price always takes a supported-currency branch:
the unknown-currency error is unreachable for persisted orders. -/
theorem C10_persisted_currency_supported (cfg : Config) (s : Sys)
    (hreach : Reachable cfg s) :
    ∀ o ∈ s.orders,
      ((o.country = "Saudi Arabia" ∧ o.currency = "SAR") ∨
       (o.country = "UAE" ∧ o.currency = "AED")) ∧
      (∃ uc, convert_to_usd o.commission o.currency = .ok uc) ∧
      (∃ us, convert_to_usd o.selling_price o.currency = .ok us) := by
  intro o ho
  have hok := (reachable_good hreach).orders_ok o ho
  refine ⟨hok.2.2.2, ?_, ?_⟩
  · rcases hok.2.2.2 with ⟨_, hcu⟩ | ⟨_, hcu⟩
    · exact ⟨_, by rw [hcu]; exact convert_to_usd_sar _⟩
    · exact ⟨_, by rw [hcu]; exact convert_to_usd_aed _⟩
  · rcases hok.2.2.2 with ⟨_, hcu⟩ | ⟨_, hcu⟩
    · exact ⟨_, by rw [hcu]; exact convert_to_usd_sar _⟩
    · exact ⟨_, by rw [hcu]; exact convert_to_usd_aed _⟩

theorem C10_persisted_currency_supported_witness :
    ((oA.country = "Saudi Arabia" ∧ oA.currency = "SAR") ∨
     (oA.country = "UAE" ∧ oA.currency = "AED")) ∧
    (∃ uc, convert_to_usd oA.commission oA.currency = .ok uc) ∧
    (∃ us, convert_to_usd oA.selling_price oA.currency = .ok us) :=
  C10_persisted_currency_supported cfgDefault sA ⟨esA, rfl⟩ oA
    (by rw [sA_eval]; exact List.mem_cons_self _ _)

end AffiliateBot
